import Mathlib

/-!
# godot-mcp: a shallow embedding of `src/index.js`

The server in `src/index.js` is glue code over the filesystem and three external
commands.  The embedding below keeps the control flow of every function of the
source and makes its surroundings explicit:

* JavaScript values that reach the code through `args` are `JsVal`s;
* result objects are `JsVal` objects, built field by field as in the source;
* the filesystem is a function from paths to directory trees, updated by
  `mkdtempSync` and `rmSync`;
* external commands are answered by an oracle that sees the whole history, so
  every sequence of outcomes (resolve, reject) is covered;
* every filesystem access and command invocation is appended to a trace.
-/

namespace GodotMcp

/-! ## JavaScript strings, arrays and regular expressions -/

/-- `String.prototype.split(sep)` for a one-character separator, on character lists. -/
def splitChars (sep : Char) : List Char → List (List Char)
  | [] => [[]]
  | c :: cs =>
    if c = sep then [] :: splitChars sep cs
    else
      match splitChars sep cs with
      | [] => [[c]]
      | l :: ls => (c :: l) :: ls

/-- `s.split(sep)` for a one-character separator. -/
def jsSplit (s : String) (sep : Char) : List String :=
  (splitChars sep s.data).map String.mk

/-- `Array.prototype.join(sep)` on character lists. -/
def joinChars (sep : List Char) : List (List Char) → List Char
  | [] => []
  | [x] => x
  | x :: y :: rest => x ++ sep ++ joinChars sep (y :: rest)

/-- `xs.join(sep)` for an array of strings. -/
def jsJoin (sep : String) (xs : List String) : String :=
  String.mk (joinChars sep.data (xs.map String.data))

/-- `Array.prototype.slice(start, end)`: negative indices count from the end,
a missing `end` is the length. -/
def jsSlice {α : Type} (start : Int) (stop : Option Int) (xs : List α) : List α :=
  let len : Int := xs.length
  let k : Int := if start < 0 then max (len + start) 0 else min start len
  let relEnd : Int := stop.getD len
  let final : Int := if relEnd < 0 then max (len + relEnd) 0 else min relEnd len
  (xs.drop k.toNat).take (max (final - k) 0).toNat

/-- `String.prototype.toLowerCase`, on the ASCII letters (the only characters whose
lower-case form is a letter of the needle `error`). -/
def jsToLowerCase (s : String) : String :=
  String.mk (s.data.map Char.toLower)

/-- Does `needle` occur in `hay` as a contiguous run. -/
def includesChars (needle : List Char) : List Char → Bool
  | [] => needle.isPrefixOf []
  | c :: cs => needle.isPrefixOf (c :: cs) || includesChars needle cs

/-- `String.prototype.includes`. -/
def jsIncludes (s needle : String) : Bool :=
  includesChars needle.data s.data

/-- Canonicalisation of a character under the `i` flag of a non-unicode regular
expression: the upper-case form, which for the ASCII patterns of the source
relates exactly the two cases of each ASCII letter. -/
def canonicalize (c : Char) : Char := c.toUpper

/-- Does the literal alternative `alt` match at the start of `s`, ignoring case. -/
def matchAltAt (alt : List Char) (s : List Char) : Bool :=
  (alt.map canonicalize).isPrefixOf (s.map canonicalize)

/-- Scan of a regular expression `/a1|a2|.../i`, made of literal alternatives,
over the start positions of `s`, left to right. -/
def regexScan (alts : List (List Char)) : List Char → Bool
  | [] => alts.any (fun a => matchAltAt a [])
  | c :: cs => alts.any (fun a => matchAltAt a (c :: cs)) || regexScan alts cs

/-- `/a1|a2|.../i.test(s)`. -/
def regexTest (alts : List String) (s : String) : Bool :=
  regexScan (alts.map String.data) s.data

/-- The pattern `/ERROR|Error|error|Identifier/i`. -/
def errorLinePattern : List String := ["ERROR", "Error", "error", "Identifier"]

/-- The pattern `/ERROR|Error|error/i`. -/
def errorPattern : List String := ["ERROR", "Error", "error"]

/-- `s.startsWith(p)`. -/
def jsStartsWith (s p : String) : Bool := p.data.isPrefixOf s.data

/-- `s.endsWith(p)`. -/
def jsEndsWith (s p : String) : Bool := p.data.isSuffixOf s.data

/-! ## `path` (POSIX flavour) -/

/-- `path.isAbsolute` of a string: non-empty and starting with a slash. -/
def isAbsolutePath (p : String) : Bool :=
  match p.data with
  | [] => false
  | c :: _ => c == '/'

/-- One segment of `normalizeString`: empty and `.` segments are dropped, `..`
removes the previous segment (or is kept, above the start of a relative path),
any other segment is appended.  The stack is kept in reverse. -/
def normStep (allowAboveRoot : Bool) (stack : List (List Char)) (seg : List Char) :
    List (List Char) :=
  if seg = [] ∨ seg = ['.'] then stack
  else if seg = ['.', '.'] then
    match stack with
    | [] => if allowAboveRoot then [seg] else []
    | top :: rest =>
      if top = ['.', '.'] then (if allowAboveRoot then seg :: stack else stack) else rest
  else seg :: stack

/-- `path.normalize` on character lists. -/
def normalizeChars (p : List Char) : List Char :=
  if p = [] then ['.']
  else
    let isAbs := p.head? == some '/'
    let trailing := p.getLast? == some '/'
    let stack := (splitChars '/' p).foldl (normStep (!isAbs)) []
    let body := joinChars ['/'] stack.reverse
    if body = [] then
      (if isAbs then ['/'] else if trailing then ['.', '/'] else ['.'])
    else
      let body2 := if trailing then body ++ ['/'] else body
      if isAbs then '/' :: body2 else body2

/-- `path.join(...args)`: the non-empty arguments joined by a slash, normalised. -/
def pathJoin (args : List String) : String :=
  let parts := (args.map String.data).filter (fun a => a ≠ [])
  if parts = [] then "." else String.mk (normalizeChars (joinChars ['/'] parts))

/-! ## Values, errors and the directory tree -/

/-- A JavaScript value: what `args` and its properties may be, and what the
handlers return.  Numbers are the integers. -/
inductive JsVal
  | undefined
  | null
  | bool (b : Bool)
  | num (n : Int)
  | str (s : String)
  | arr (items : List JsVal)
  | obj (fields : List (String × JsVal))

mutual
/-- `String(v)`, as in a template literal. -/
def JsVal.show : JsVal → String
  | .undefined => "undefined"
  | .null => "null"
  | .bool b => if b then "true" else "false"
  | .num n => toString n
  | .str s => s
  | .arr items => JsVal.showItems items
  | .obj _ => "[object Object]"
/-- The elements of an array joined by commas, `null` and `undefined` shown empty. -/
def JsVal.showItems : List JsVal → String
  | [] => ""
  | [x] =>
    (match x with
     | .undefined => ""
     | .null => ""
     | y => JsVal.show y)
  | x :: y :: rest =>
    (match x with
     | .undefined => ""
     | .null => ""
     | z => JsVal.show z) ++ "," ++ JsVal.showItems (y :: rest)
end

/-- Truthiness of a value (`!v`, `v ? a : b`, `v || d`). -/
def JsVal.truthy : JsVal → Bool
  | .undefined => false
  | .null => false
  | .bool b => b
  | .num n => n != 0
  | .str s => !s.data.isEmpty
  | .arr _ => true
  | .obj _ => true

/-- Property read `v.key` on a value that is neither `undefined` nor `null`. -/
def JsVal.get (v : JsVal) (key : String) : JsVal :=
  match v with
  | .obj fields => (fields.lookup key).getD .undefined
  | _ => .undefined

/-- `a && b`. -/
def jsAnd (a b : JsVal) : JsVal := if a.truthy then b else a

/-- `s || d` for a string `s`. -/
def strOr (s d : String) : String := if s.data.isEmpty then d else s

/-- A thrown `Error`: its message and, for a rejected `exec`, the captured streams. -/
structure JsError where
  message : String
  stdout : Option String := none
  stderr : Option String := none

/-- `error.stdout || d`. -/
def JsError.stdoutOr (e : JsError) (d : String) : String :=
  match e.stdout with
  | some s => strOr s d
  | none => d

/-- `error.stderr || d`. -/
def JsError.stderrOr (e : JsError) (d : String) : String :=
  match e.stderr with
  | some s => strOr s d
  | none => d

/-- What a path resolves to: a regular file, a directory with its entries in the
order `readdirSync` returns them, or something else (a symbolic link as a
directory entry, a socket, a device). -/
inductive Node
  | file (content : String)
  | dir (entries : List (String × Node))
  | other

/-- The kind that `existsSync` and `statSync` see. -/
def Node.isDirectory : Node → Bool
  | .dir _ => true
  | _ => false

/-! ## `getGdFiles` -/

/-- The list `ignoreDirs` of `getGdFiles`. -/
def ignoreDirs : List String :=
  ["node_modules", ".git", ".svn", ".hg", ".cache", ".gradle", "build", "export"]

mutual
/-- The body of the loop of `scanDir` for one entry, `fullPath` being
`path.join(dir, entry.name)`; `acc` is `gdFiles`. -/
def scanEntry : Node → String → String → List String → List String
  | .dir es, fullPath, name, acc =>
    if !ignoreDirs.contains name && !jsStartsWith name "." then scanDir es fullPath acc
    else acc
  | .file _, fullPath, name, acc =>
    if jsEndsWith name ".gd" then acc ++ [fullPath] else acc
  | .other, _, _, acc => acc
/-- The function `scanDir(dir)` on the entries of an existing directory. -/
def scanDir : List (String × Node) → String → List String → List String
  | [], _, acc => acc
  | (name, node) :: rest, dir, acc =>
    scanDir rest dir (scanEntry node (pathJoin [dir, name]) name acc)
end

/-- The function `getGdFiles(projectPath)`, `root` being what `projectPath` resolves to:
nothing (the scan returns at once), a directory, or something `readdirSync` rejects. -/
def getGdFiles (projectPath : String) (root : Option Node) : Except JsError (List String) :=
  match root with
  | none => .ok []
  | some (.dir es) => .ok (scanDir es projectPath [])
  | some _ => .error { message := "ENOTDIR: not a directory, scandir '" ++ projectPath ++ "'" }

/-! ## The world: filesystem, external commands, trace -/

/-- The program an `execAsync` call site runs. -/
inductive Tool
  | gdlint
  | gdformat
  | godot
  deriving DecidableEq

/-- One `execAsync(line, options)` call. -/
structure Cmd where
  tool : Tool
  line : String
  cwd : Option String := none
  timeout : Option Nat := none
  maxBuffer : Option Nat := none
  deriving DecidableEq

/-- A filesystem call; `scanDir` stands for the `existsSync` and `readdirSync`
calls of one `getGdFiles` traversal, `mkdtempSync` for a call that created the
directory named, `mkdtempFailed` for a call that threw. -/
inductive FsOp
  | existsSync (p : String)
  | statSync (p : String)
  | scanDir (p : String)
  | readFileSync (p : String)
  | mkdtempSync (created : String)
  | mkdtempFailed (template : String)
  | rmSync (p : String)
  deriving DecidableEq

/-- An observable effect. -/
inductive Event
  | fs (op : FsOp)
  | exec (cmd : Cmd)
  deriving DecidableEq

/-- The outcome of one external command: the promise resolves with the two
streams, or rejects (non-zero exit, timeout, buffer overflow, spawn failure). -/
inductive ExecResult
  | resolved (stdout stderr : String)
  | rejected (e : JsError)

/-- What the code does not control: the outcome of each command given everything
that happened before; the system temporary directory; what `mkdtempSync` does
when called after a given history, the suffix it picks or `none` when it throws
(temporary directory missing or not writable); and the value the global scope
binds to the identifier `GODOT_BIN`.  The file `index.js` declares no such
identifier and nothing else in the repository defines it, so in the program as
shipped the binding is `none` and evaluating `GODOT_BIN` throws a
`ReferenceError`. -/
structure Env where
  exec : List Event → Cmd → ExecResult
  tmpdir : String
  tmpSuffix : List Event → Option String
  GODOT_BIN : Option String

/-- The state: what each path resolves to, and the effects so far, oldest first. -/
structure World where
  fs : String → Option Node
  trace : List Event

/-- Append an event to the trace. -/
def World.log (w : World) (e : Event) : World :=
  { w with trace := w.trace ++ [e] }

/-- A computation that reads and changes the world and may throw. -/
def Eff (α : Type) : Type := World → Except JsError α × World

/-- Return a value. -/
def Eff.pure {α : Type} (a : α) : Eff α := fun w => (.ok a, w)

/-- Sequence two computations; a throw skips the second. -/
def Eff.bind {α β : Type} (m : Eff α) (f : α → Eff β) : Eff β := fun w =>
  match m w with
  | (.ok a, w1) => f a w1
  | (.error e, w1) => (.error e, w1)

instance : Monad Eff where
  pure := Eff.pure
  bind := Eff.bind

/-- The statement `throw e`. -/
def throwErr {α : Type} (e : JsError) : Eff α := fun w => (.error e, w)

/-- Run the body of a `try` and hand its outcome to the code after it. -/
def attempt {α : Type} (m : Eff α) : Eff (Except JsError α) := fun w =>
  match m w with
  | (r, w1) => (.ok r, w1)

/-- `fs.existsSync(p)`. -/
def existsSync (p : String) : Eff Bool := fun w =>
  (.ok (w.fs p).isSome, w.log (.fs (.existsSync p)))

/-- `fs.statSync(p).isDirectory()`. -/
def statIsDirectory (p : String) : Eff Bool := fun w =>
  match w.fs p with
  | some n => (.ok n.isDirectory, w.log (.fs (.statSync p)))
  | none =>
    (.error { message := "ENOENT: no such file or directory, stat '" ++ p ++ "'" },
      w.log (.fs (.statSync p)))

/-- `fs.readFileSync(p, 'utf-8')`. -/
def readFileSync (p : String) : Eff String := fun w =>
  match w.fs p with
  | some (.file content) => (.ok content, w.log (.fs (.readFileSync p)))
  | some (.dir _) =>
    (.error { message := "EISDIR: illegal operation on a directory, read" },
      w.log (.fs (.readFileSync p)))
  | some .other =>
    (.error { message := "EIO: cannot read '" ++ p ++ "'" }, w.log (.fs (.readFileSync p)))
  | none =>
    (.error { message := "ENOENT: no such file or directory, open '" ++ p ++ "'" },
      w.log (.fs (.readFileSync p)))

/-- Is `q` the path `p` or a path below it. -/
def isAtOrUnder (p q : String) : Bool :=
  q == p || (p.data ++ ['/']).isPrefixOf q.data

/-- `fs.rmSync(p, { recursive: true, force: true })`. -/
def rmSync (p : String) : Eff Unit := fun w =>
  (.ok (), { fs := fun q => if isAtOrUnder p q then none else w.fs q,
             trace := w.trace ++ [.fs (.rmSync p)] })

/-- The function `getTempDir()`: `fs.mkdtempSync(path.join(os.tmpdir(), 'godot-mcp-'))`
creates an empty directory whose name is the template followed by a suffix, or
throws and creates nothing. -/
def getTempDir (env : Env) : Eff String := fun w =>
  let template := pathJoin [env.tmpdir, "godot-mcp-"]
  match env.tmpSuffix w.trace with
  | some suffix =>
    let created := template ++ suffix
    (.ok created, { fs := fun q => if q = created then some (.dir []) else w.fs q,
                    trace := w.trace ++ [.fs (.mkdtempSync created)] })
  | none =>
    (.error { message := "ENOENT: no such file or directory, mkdtemp '" ++ template ++
                "XXXXXX'" },
      w.log (.fs (.mkdtempFailed template)))

/-- `await execAsync(line, options)`: resolves with `{ stdout, stderr }` or throws. -/
def execAsync (env : Env) (cmd : Cmd) : Eff (String × String) := fun w =>
  match env.exec w.trace cmd with
  | .resolved out err => (.ok (out, err), w.log (.exec cmd))
  | .rejected e => (.error e, w.log (.exec cmd))

/-- The call `getGdFiles(projectPath)` against the current filesystem. -/
def getGdFilesIn (projectPath : String) : Eff (List String) := fun w =>
  match getGdFiles projectPath (w.fs projectPath) with
  | .ok files => (.ok files, w.log (.fs (.scanDir projectPath)))
  | .error e => (.error e, w.log (.fs (.scanDir projectPath)))

/-! ## Path validation -/

/-- The `TypeError` of `path.isAbsolute` on a value that is not a string. -/
def pathTypeError : JsError :=
  { message := "The \"path\" argument must be of type string" }

/-- The function `getProjectPath(requestedPath)`. -/
def getProjectPath (requestedPath : JsVal) : Except JsError String :=
  if !requestedPath.truthy then
    .error { message := "project 参数必须提供" }
  else
    match requestedPath with
    | .str s =>
      if !isAbsolutePath s then
        .error { message := "项目路径必须是绝对路径，当前为相对路径: " ++ s }
      else .ok s
    | _ => .error pathTypeError

/-- The function `validateProjectPath(projectPath)`. -/
def validateProjectPath (projectPath : String) : Eff String := do
  if !isAbsolutePath projectPath then
    throwErr { message := "项目路径必须是绝对路径: " ++ projectPath }
  else
    let found ← existsSync projectPath
    if !found then
      throwErr { message := "项目路径不存在: " ++ projectPath }
    else
      let isDir ← statIsDirectory projectPath
      if !isDir then
        throwErr { message := "项目路径不是目录: " ++ projectPath }
      else
        pure projectPath

/-- The function `validateFilePath(filePath, projectPath)`. -/
def validateFilePath (filePath : JsVal) (_projectPath : String) : Eff String := do
  if !filePath.truthy then
    throwErr { message := "file 参数必须提供" }
  else
    match filePath with
    | .str s =>
      if !isAbsolutePath s then
        throwErr { message := "文件路径必须是绝对路径，当前为: " ++ s }
      else
        let found ← existsSync s
        if !found then
          throwErr { message := "文件不存在: " ++ s }
        else
          pure s
    | _ => throwErr pathTypeError

/-! ## The cases of `handleTool` -/

/-- The test `stderr && stderr.toLowerCase().includes('error')`. -/
def stderrHasError (stderr : String) : Bool :=
  !stderr.data.isEmpty && jsIncludes (jsToLowerCase stderr) "error"

/-- The command `gdlint "<file>"`. -/
def gdlintCmd (file : String) : Cmd :=
  { tool := .gdlint, line := "gdlint \"" ++ file ++ "\"" }

/-- The header and text appended to `allErrors` for one file. -/
def errorBlock (gdFile text : String) : String :=
  "[" ++ gdFile ++ "]\n" ++ text ++ "\n"

/-- The loop over `gdFiles` of the `all` branch of `gdlint`; the state is
`(allErrors, hasError)`. -/
def lintAllLoop (env : Env) : List String → String × Bool → Eff (String × Bool)
  | [], st => pure st
  | gdFile :: rest, (allErrors, hasError) => do
    let r ← attempt (execAsync env (gdlintCmd gdFile))
    match r with
    | .ok (_, stderr) =>
      if stderrHasError stderr then
        lintAllLoop env rest (allErrors ++ errorBlock gdFile stderr, true)
      else
        lintAllLoop env rest (allErrors, hasError)
    | .error e =>
      lintAllLoop env rest (allErrors ++ errorBlock gdFile (e.stderrOr e.message), true)

/-- The case `'gdlint'`. -/
def gdlintCase (env : Env) (projectPath : String) (args : JsVal) : Eff JsVal := do
  let file := args.get "file"
  let all := args.get "all"
  if all.truthy then
    let gdFiles ← getGdFilesIn projectPath
    let (allErrors, hasError) ← lintAllLoop env gdFiles ("", false)
    pure (.obj [("success", .bool (!hasError)),
                ("output", .str (if hasError then "发现错误" else "所有文件检查通过")),
                ("errors", .str allErrors),
                ("checkedFiles", .num gdFiles.length),
                ("project", .str projectPath)])
  else
    let targetFile ← validateFilePath file projectPath
    let r ← attempt (execAsync env (gdlintCmd targetFile))
    match r with
    | .ok (stdout, stderr) =>
      if stderrHasError stderr then
        pure (.obj [("success", .bool false), ("output", .str stdout),
                    ("errors", .str stderr), ("project", .str projectPath)])
      else
        pure (.obj [("success", .bool true), ("output", .str (strOr stdout "检查通过")),
                    ("errors", .str ""), ("project", .str projectPath)])
    | .error error =>
      pure (.obj [("success", .bool false), ("output", .str (error.stdoutOr "")),
                  ("errors", .str (error.stderrOr error.message)),
                  ("project", .str projectPath)])

/-- The case `'gdformat'`. -/
def gdformatCase (env : Env) (projectPath : String) (args : JsVal) : Eff JsVal := do
  let file := args.get "file"
  let check := args.get "check"
  let targetFile ← validateFilePath file projectPath
  let line :=
    if check.truthy then "gdformat --check \"" ++ targetFile ++ "\""
    else "gdformat \"" ++ targetFile ++ "\""
  let r ← attempt (execAsync env
    { tool := .gdformat, line := line, cwd := some projectPath,
      maxBuffer := some (10 * 1024 * 1024) })
  match r with
  | .ok _ =>
    pure (.obj [("success", .bool true),
                ("output", .str (if check.truthy then "格式正确" else "格式化完成")),
                ("formatted", .bool (!check.truthy)),
                ("project", .str projectPath)])
  | .error error =>
    pure (.obj [("success", .bool false), ("output", .str (error.stdoutOr "")),
                ("errors", .str (error.stderrOr "格式错误")),
                ("project", .str projectPath)])

/-- Lift a pure outcome into a computation. -/
def liftExcept {α : Type} (r : Except JsError α) : Eff α := fun w => (r, w)

/-- The `ReferenceError` of evaluating an identifier that nothing declares. -/
def referenceError (name : String) : JsError :=
  { message := name ++ " is not defined" }

/-- The arguments of the `execAsync` call of `godot_export_validate`.  Evaluating
the template literal reads `GODOT_BIN` first: with no binding it throws a
`ReferenceError` and there is no command. -/
def exportCmd (env : Env) (projectPath : String) (targetPreset : JsVal)
    (targetOutput : String) : Except JsError Cmd :=
  match env.GODOT_BIN with
  | none => .error (referenceError "GODOT_BIN")
  | some bin =>
    .ok { tool := .godot,
          line := "\"" ++ bin ++ "\" --headless --path \"" ++ projectPath ++
            "\" --export-pack \"" ++ targetPreset.show ++ "\" \"" ++ targetOutput ++ "\"",
          cwd := some projectPath,
          timeout := some 120000 }

/-- The case `'godot_export_validate'`. -/
def exportValidateCase (env : Env) (projectPath : String) (args : JsVal) : Eff JsVal := do
  let preset := args.get "preset"
  let targetPreset := if preset.truthy then preset else .str "Web"
  let tempDir ← getTempDir env
  let targetOutput := pathJoin [tempDir, "validate.pck"]
  let r ← attempt (do
    let cmd ← liftExcept (exportCmd env projectPath targetPreset targetOutput)
    let (stdout, stderr) ← execAsync env cmd
    rmSync tempDir
    let errorOutput := stdout ++ stderr
    let hasErrors := regexTest errorPattern errorOutput
    if hasErrors then
      let errors := jsSlice 0 (some 20)
        ((jsSplit errorOutput '\n').filter (fun line => regexTest errorLinePattern line))
      pure (JsVal.obj [("success", .bool false), ("output", .str "发现依赖错误"),
                       ("errors", .str (jsJoin "\n" errors)), ("cleaned", .bool true),
                       ("project", .str projectPath)])
    else
      pure (JsVal.obj [("success", .bool true), ("output", .str "项目验证通过"),
                       ("cleaned", .bool true), ("project", .str projectPath)]))
  match r with
  | .ok result => pure result
  | .error error => do
    rmSync tempDir
    pure (.obj [("success", .bool false), ("output", .str "验证失败"),
                ("errors", .str (error.stdoutOr error.message)), ("cleaned", .bool true),
                ("project", .str projectPath)])

/-- The `TypeError` of reading the property `key` of `undefined` or `null`. -/
def propTypeError (base key : String) : JsError :=
  { message := "Cannot read properties of " ++ base ++ " (reading '" ++ key ++ "')" }

/-- The read `args.project` at the head of `handleTool`. -/
def readProject (args : JsVal) : Except JsError JsVal :=
  match args with
  | .undefined => .error (propTypeError "undefined" "project")
  | .null => .error (propTypeError "null" "project")
  | v => .ok (v.get "project")

/-- The first statement of `handleTool`:
`validateProjectPath(getProjectPath(args.project))`. -/
def resolveProject (args : JsVal) : Eff String := do
  let requested ← liftExcept (readProject args)
  let absolute ← liftExcept (getProjectPath requested)
  validateProjectPath absolute

/-- The call `handleTool('godot_export_validate', args)`. -/
def handleExportValidate (env : Env) (args : JsVal) : Eff JsVal := do
  let projectPath ← resolveProject args
  exportValidateCase env projectPath args

/-- The loop over `gdFiles` of step 1 of `godot_check_all`; the state is
`(allErrors, hasError)`. -/
def checkAllLintLoop (env : Env) : List String → String × Bool → Eff (String × Bool)
  | [], st => pure st
  | gdFile :: rest, (allErrors, hasError) => do
    let r ← attempt (execAsync env (gdlintCmd gdFile))
    match r with
    | .ok _ => checkAllLintLoop env rest (allErrors, hasError)
    | .error e =>
      checkAllLintLoop env rest (allErrors ++ errorBlock gdFile (e.stderrOr e.message), true)

/-- Step 1 of `godot_check_all`: the value given to `results.lint`. -/
def checkAllLint (env : Env) (projectPath : String) (file : JsVal) : Eff JsVal := do
  let r ← attempt (do
    if file.truthy then
      let targetFile ← validateFilePath file projectPath
      let _ ← execAsync env (gdlintCmd targetFile)
      pure (JsVal.obj [("success", .bool true), ("output", .str "Lint 通过")])
    else
      let gdFiles ← getGdFilesIn projectPath
      let (allErrors, hasError) ← checkAllLintLoop env gdFiles ("", false)
      if hasError then
        pure (JsVal.obj [("success", .bool false), ("errors", .str allErrors),
                         ("checkedFiles", .num gdFiles.length)])
      else
        pure (JsVal.obj [("success", .bool true), ("output", .str "所有文件 lint 通过"),
                         ("checkedFiles", .num gdFiles.length)]))
  match r with
  | .ok lint => pure lint
  | .error error =>
    pure (.obj [("success", .bool false), ("errors", .str (error.stdoutOr error.message))])

/-- The command `gdformat "<file>"` run from the project directory. -/
def gdformatCmd (projectPath file : String) : Cmd :=
  { tool := .gdformat, line := "gdformat \"" ++ file ++ "\"", cwd := some projectPath }

/-- The loop over `gdFiles` of step 2 of `godot_check_all`: the first rejection
leaves the loop. -/
def checkAllFormatLoop (env : Env) (projectPath : String) : List String → Eff Unit
  | [] => pure ()
  | gdFile :: rest => do
    let _ ← execAsync env (gdformatCmd projectPath gdFile)
    checkAllFormatLoop env projectPath rest

/-- Step 2 of `godot_check_all`: the value given to `results.format`. -/
def checkAllFormat (env : Env) (projectPath : String) (file : JsVal) : Eff JsVal := do
  let r ← attempt (do
    if file.truthy then
      let targetFile ← validateFilePath file projectPath
      let _ ← execAsync env (gdformatCmd projectPath targetFile)
      pure ()
    else
      let gdFiles ← getGdFilesIn projectPath
      checkAllFormatLoop env projectPath gdFiles)
  match r with
  | .ok _ => pure (.obj [("success", .bool true), ("output", .str "格式化完成")])
  | .error error => pure (.obj [("success", .bool false), ("errors", .str error.message)])

/-- The text `OK` or `FAIL` for a step's `success`. -/
def okOrFail (success : JsVal) : String := if success.truthy then "OK" else "FAIL"

/-- The case `'godot_check_all'`. -/
def checkAllCase (env : Env) (projectPath : String) (args : JsVal) : Eff JsVal := do
  let file := args.get "file"
  let lint ← checkAllLint env projectPath file
  let summary1 := ["Lint: " ++ okOrFail (lint.get "success")]
  let format ← checkAllFormat env projectPath file
  let summary2 := summary1 ++ ["Format: " ++ okOrFail (format.get "success")]
  let exportResult ← handleExportValidate env
    (.obj [("project", .str projectPath), ("preset", .str "Web")])
  let summary3 := summary2 ++ ["Export: " ++ okOrFail (exportResult.get "success")]
  let results := JsVal.obj [("lint", lint), ("format", format), ("export", exportResult),
                            ("summary", .arr (summary3.map JsVal.str))]
  pure (.obj [("success", jsAnd (lint.get "success") (exportResult.get "success")),
              ("results", results),
              ("summary", .str (jsJoin " | " summary3)),
              ("project", .str projectPath)])

/-- The case `'godot_get_errors'`. -/
def getErrorsCase (_env : Env) (projectPath : String) (args : JsVal) : Eff JsVal := do
  let log_file := args.get "log_file"
  let logPath ←
    (if log_file.truthy then
      match log_file with
      | .str s =>
        if !isAbsolutePath s then
          throwErr { message := "日志文件路径必须是绝对路径，当前为: " ++ s }
        else pure s
      | _ => throwErr pathTypeError
    else
      pure (pathJoin [projectPath, "logs", "godot.log"]) : Eff String)
  let found ← existsSync logPath
  if !found then
    pure (.obj [("success", .bool false), ("output", .str "日志文件不存在"),
                ("project", .str projectPath)])
  else
    let content ← readFileSync logPath
    let lines := jsSplit content '\n'
    let errorLines := jsSlice (-50) none
      (lines.filter (fun line => regexTest errorLinePattern line))
    pure (.obj [("success", .bool true), ("errors", .str (jsJoin "\n" errorLines)),
                ("count", .num errorLines.length), ("project", .str projectPath)])

/-- The function `handleTool(toolName, args)`. -/
def handleTool (env : Env) (toolName : String) (args : JsVal) : Eff JsVal := do
  let projectPath ← resolveProject args
  if toolName = "gdlint" then gdlintCase env projectPath args
  else if toolName = "gdformat" then gdformatCase env projectPath args
  else if toolName = "godot_export_validate" then exportValidateCase env projectPath args
  else if toolName = "godot_check_all" then checkAllCase env projectPath args
  else if toolName = "godot_get_errors" then getErrorsCase env projectPath args
  else pure (.obj [("success", .bool false), ("error", .str "未知工具")])

/-! ## The call-operation request handler -/

/-- One item of a response's `content`. -/
structure ContentItem where
  type : String
  text : String

/-- The response of the call-operation handler. -/
structure Response where
  content : List ContentItem

/-- The handler registered for `CallToolRequestSchema`, for a request whose
`params` are `{ name, arguments: args }`; `stringify` is `JSON.stringify(·, null, 2)`. -/
def callToolHandler (stringify : JsVal → String) (env : Env) (name : String) (args : JsVal) :
    Eff Response := do
  let r ← attempt (handleTool env name args)
  match r with
  | .ok result => pure { content := [{ type := "text", text := stringify result }] }
  | .error error =>
    pure { content := [{ type := "text",
                         text := stringify (.obj [("success", .bool false),
                                                  ("error", .str error.message)]) }] }

/-! ## Vocabulary of the statements -/

/-- The arguments carry a project that is an absolute path of an existing directory. -/
def ValidProject (w : World) (args : JsVal) (p : String) : Prop :=
  readProject args = .ok (.str p) ∧ isAbsolutePath p = true ∧ ∃ es, w.fs p = some (.dir es)

/-- The line contains `error` or `identifier`, whatever the case of its letters. -/
def mentionsError (line : String) : Prop :=
  "error".data <:+: line.data.map Char.toLower ∨
    "identifier".data <:+: line.data.map Char.toLower

instance : DecidablePred mentionsError := fun line => by
  unfold mentionsError
  infer_instance

/-- The lines of a log, in file order, that mention an error. -/
def matchingLines (content : String) : List String :=
  (jsSplit content '\n').filter (fun line => decide (mentionsError line))

/-- The world after the two checks of `validateProjectPath` on `p`. -/
def afterProjectChecks (w : World) (p : String) : World :=
  { fs := w.fs, trace := w.trace ++ [.fs (.existsSync p), .fs (.statSync p)] }


/-! ### Vocabulary for `getGdFiles` -/

/-- The path of a chain of entry names below `root`: `path.join` applied name by name. -/
def chainPath (root : String) : List String → String
  | [] => root
  | name :: rest => chainPath (pathJoin [root, name]) rest

/-- A chain of entry names that leads from a directory's entries, through
directories that are neither on the ignore list nor hidden, to a regular file
whose name ends with `.gd`. -/
inductive GdChain : List (String × Node) → List String → Prop
  | file {es : List (String × Node)} {name content : String} :
      (name, Node.file content) ∈ es → jsEndsWith name ".gd" = true → GdChain es [name]
  | dir {es sub : List (String × Node)} {name : String} {chain : List String} :
      (name, Node.dir sub) ∈ es → name ∉ ignoreDirs → jsStartsWith name "." = false →
      GdChain sub chain → GdChain es (name :: chain)

mutual
/-- The chains to the script files at or below one entry, depth first. -/
def entryChains : Node → String → List (List String)
  | .dir sub, name =>
    if name ∈ ignoreDirs ∨ jsStartsWith name "." = true then []
    else (dirChains sub).map (fun chain => name :: chain)
  | .file _, name => if jsEndsWith name ".gd" = true then [[name]] else []
  | .other, _ => []
/-- The chains to the script files below a directory, depth first, in the order
of the directory's entries. -/
def dirChains : List (String × Node) → List (List String)
  | [] => []
  | (name, node) :: rest => entryChains node name ++ dirChains rest
end

mutual
/-- Well-formedness of what one entry holds. -/
def wfNode : Node → Bool
  | .dir sub => wfEntries sub
  | .file _ => true
  | .other => true
/-- A directory listing as a filesystem produces it: no entry name contains a
slash and no name occurs twice in a directory, at every depth. -/
def wfEntries : List (String × Node) → Bool
  | [] => true
  | (name, node) :: rest =>
    !name.data.contains '/' && !(rest.map Prod.fst).contains name && wfNode node &&
      wfEntries rest
end

/-- A proper segment: not empty, not `.` or `..`, free of slashes. -/
def ProperSegment (n : List Char) : Prop :=
  n ≠ [] ∧ n ≠ ['.'] ∧ n ≠ ['.', '.'] ∧ '/' ∉ n

/-! ### Vocabulary for effects -/

/-- The program an event invokes, if it is a command. -/
def Event.tool? : Event → Option Tool
  | .exec cmd => some cmd.tool
  | .fs _ => none

/-- The directory that `getTempDir` creates when `mkdtempSync` picks `suffix`. -/
def tempDirOf (env : Env) (suffix : String) : String :=
  pathJoin [env.tmpdir, "godot-mcp-"] ++ suffix

/-- The value of `targetPreset` in `godot_export_validate`. -/
def targetPresetOf (args : JsVal) : JsVal :=
  if (args.get "preset").truthy then args.get "preset" else .str "Web"

/-- The export command of `godot_export_validate` for the temporary directory
with this suffix, or the error of building it. -/
def exportCmdAt (env : Env) (p : String) (args : JsVal) (suffix : String) :
    Except JsError Cmd :=
  exportCmd env p (targetPresetOf args) (pathJoin [tempDirOf env suffix, "validate.pck"])

/-- The events of the `try` of `godot_export_validate` up to the removal of the
directory: the run of the export command, when there is a command to run. -/
def exportRunEvents (env : Env) (p : String) (args : JsVal) (suffix : String) : List Event :=
  match exportCmdAt env p args suffix with
  | .ok cmd => [.exec cmd]
  | .error _ => []

/-- The result is an object whose `success` is a boolean. -/
def HasBoolSuccess (r : JsVal) : Prop :=
  (∃ fields, r = .obj fields) ∧ ∃ b, r.get "success" = .bool b

/-- Every value the computation returns satisfies `P`. -/
def Post {α : Type} (m : Eff α) (P : α → Prop) : Prop :=
  ∀ w a w', m w = (.ok a, w') → P a

/-- The computation leaves the filesystem as it is, and the commands it runs, if
any, are all runs of `tool`. -/
def OnlyRuns {α : Type} (tool : Tool) (m : Eff α) : Prop :=
  ∀ w, (m w).2.fs = w.fs ∧
    ∃ n evs, (m w).2.trace = w.trace ++ evs ∧
      evs.filterMap Event.tool? = List.replicate n tool

/-- The computation returns, from every world, a value satisfying `P`. -/
def Total {α : Type} (m : Eff α) (P : α → Prop) : Prop :=
  ∀ w, ∃ a w', m w = (.ok a, w') ∧ P a

/-- The arguments of the call `handleTool('godot_export_validate', ...)` made by
`godot_check_all`. -/
def checkAllExportArgs (p : String) : JsVal :=
  .obj [("project", .str p), ("preset", .str "Web")]

/-- The three entries of `results.summary`. -/
def summaryEntries (lint format exp : JsVal) : List String :=
  ["Lint: " ++ okOrFail (lint.get "success"),
   "Format: " ++ okOrFail (format.get "success"),
   "Export: " ++ okOrFail (exp.get "success")]

/-- The object returned by `godot_check_all` from the results of its three steps. -/
def checkAllResult (p : String) (lint format exp : JsVal) : JsVal :=
  .obj [("success", jsAnd (lint.get "success") (exp.get "success")),
        ("results", .obj [("lint", lint), ("format", format), ("export", exp),
                          ("summary", .arr ((summaryEntries lint format exp).map JsVal.str))]),
        ("summary", .str (jsJoin " | " (summaryEntries lint format exp))),
        ("project", .str p)]

/-! ### Vocabulary for the lint loop -/

/-- The outcomes of the `gdlint` runs of a loop over `files` that starts with the
trace `t`, in order: each run sees the trace left by the runs before it. -/
def gdlintOutcomes (env : Env) : List String → List Event → List ExecResult
  | [], _ => []
  | f :: rest, t =>
    env.exec t (gdlintCmd f) :: gdlintOutcomes env rest (t ++ [.exec (gdlintCmd f)])

/-- The run exited with status zero and its stderr does not contain `error`. -/
def ExecResult.lintClean : ExecResult → Bool
  | .resolved _ stderr => !stderrHasError stderr
  | .rejected _ => false

/-- The stderr of the run contains `error`, whatever its exit status. -/
def ExecResult.stderrMatches : ExecResult → Bool
  | .resolved _ stderr => stderrHasError stderr
  | .rejected e => stderrHasError (e.stderrOr "")

/-- The trace with which the lint loop of `gdlint` with `all` starts. -/
def lintAllStart (w : World) (p : String) : List Event :=
  (afterProjectChecks w p).trace ++ [.fs (.scanDir p)]

/-- The names of the catalog `tools`. -/
def toolNames : List String :=
  ["gdlint", "gdformat", "godot_export_validate", "godot_check_all", "godot_get_errors"]

/-- The structured failure of the `default` case of `handleTool`. -/
def unknownToolResult : JsVal :=
  .obj [("success", .bool false), ("error", .str "未知工具")]

/-! ### A sample project -/

/-- The entries of a small project directory. -/
def sampleEntries : List (String × Node) :=
  [("main.gd", .file "extends Node"),
   ("addons", .dir [("tool.gd", .file "extends Node"), ("notes.txt", .file "")]),
   (".git", .dir [("hook.gd", .file "")]),
   ("build", .dir [("out.gd", .file "")]),
   ("README.md", .file ""),
   ("link.gd", .other)]

/-- The text of the sample log. -/
def sampleLog : String :=
  "boot\nERROR: cannot load\nloaded\nParser Error: Identifier \"x\" not declared\nunknown identifier y\n"

/-- A filesystem with the sample project at `/proj`. -/
def sampleFs (q : String) : Option Node :=
  if q = "/proj" then some (.dir sampleEntries)
  else if q = "/proj/main.gd" then some (.file "extends Node")
  else if q = "/proj/logs/godot.log" then some (.file sampleLog)
  else none

/-- The sample filesystem before anything has happened. -/
def sampleWorld : World := { fs := sampleFs, trace := [] }

/-- Every command exits with status zero and prints nothing. -/
def quietEnv : Env :=
  { exec := fun _ _ => .resolved "" "", tmpdir := "/tmp", tmpSuffix := fun _ => some "a1B2c3",
    GODOT_BIN := none }

/-- Every command exits with a non-zero status; its stderr reports a style
problem and does not contain `error`. -/
def failingEnv : Env :=
  { exec := fun _ _ =>
      .rejected { message := "Command failed", stdout := some "", stderr := some "line too long" },
    tmpdir := "/tmp", tmpSuffix := fun _ => some "a1B2c3", GODOT_BIN := none }

/-- Every command exits with status zero and writes a line with `Error` to stderr. -/
def noisyEnv : Env :=
  { exec := fun _ _ => .resolved "" "Error: deprecated option", tmpdir := "/tmp",
    tmpSuffix := fun _ => some "a1B2c3", GODOT_BIN := none }

/-- Arguments that name the sample project only. -/
def projectArgs : JsVal := .obj [("project", .str "/proj")]

/-- Arguments of `gdlint` over the whole sample project. -/
def lintAllArgs : JsVal := .obj [("project", .str "/proj"), ("all", .bool true)]

/-- Arguments that name the sample project and its main script. -/
def mainFileArgs : JsVal := .obj [("project", .str "/proj"), ("file", .str "/proj/main.gd")]

/-- Arguments that name the sample project and a relative script path. -/
def relativeFileArgs : JsVal := .obj [("project", .str "/proj"), ("file", .str "main.gd")]

/-- Arguments that name the sample project and a relative log path. -/
def relativeLogArgs : JsVal :=
  .obj [("project", .str "/proj"), ("log_file", .str "logs/godot.log")]

/-- Arguments whose project is a relative path. -/
def relativeProjectArgs : JsVal := .obj [("project", .str "proj")]

/-- Arguments of `gdlint` over the whole sample project that also carry a
relative script path. -/
def relativeFileAllArgs : JsVal :=
  .obj [("project", .str "/proj"), ("file", .str "main.gd"), ("all", .bool true)]
/-! ## Facts about the string primitives -/

theorem toLower_toUpper (c : Char) : c.toUpper.toLower = c.toLower := by
  have hc : Char.ofNat c.toNat = c := Char.ofNat_toNat c
  by_cases h : c.toNat ≥ 97 ∧ c.toNat ≤ 122
  · obtain ⟨h1, h2⟩ := h
    generalize c.toNat = n at hc h1 h2
    subst hc
    interval_cases n <;> rfl
  · have hu : c.toUpper = c := by
      unfold Char.toUpper
      simp only [h, if_false]
    rw [hu]

theorem toUpper_toLower (c : Char) : c.toLower.toUpper = c.toUpper := by
  have hc : Char.ofNat c.toNat = c := Char.ofNat_toNat c
  by_cases h : c.toNat ≥ 65 ∧ c.toNat ≤ 90
  · obtain ⟨h1, h2⟩ := h
    generalize c.toNat = n at hc h1 h2
    subst hc
    interval_cases n <;> rfl
  · have hu : c.toLower = c := by
      unfold Char.toLower
      simp only [h, if_false]
    rw [hu]

theorem map_lower_map_upper (s : List Char) :
    (s.map Char.toUpper).map Char.toLower = s.map Char.toLower := by
  simp [List.map_map, Function.comp_def, toLower_toUpper]

theorem map_upper_map_lower (s : List Char) :
    (s.map Char.toLower).map Char.toUpper = s.map Char.toUpper := by
  simp [List.map_map, Function.comp_def, toUpper_toLower]

theorem infix_upper_iff_lower (a s : List Char) :
    a.map canonicalize <:+: s.map canonicalize ↔
      a.map Char.toLower <:+: s.map Char.toLower := by
  have hcan : canonicalize = Char.toUpper := rfl
  rw [hcan]
  constructor
  · intro h
    have := h.map Char.toLower
    rwa [map_lower_map_upper, map_lower_map_upper] at this
  · intro h
    have := h.map Char.toUpper
    rwa [map_upper_map_lower, map_upper_map_lower] at this

theorem includesChars_iff (needle hay : List Char) :
    includesChars needle hay = true ↔ needle <:+: hay := by
  induction hay with
  | nil => simp [includesChars]
  | cons c cs ih =>
    simp only [includesChars, Bool.or_eq_true, ih, List.infix_cons_iff,
      List.isPrefixOf_iff_prefix]

theorem regexScan_iff (alts : List (List Char)) (s : List Char) :
    regexScan alts s = true ↔ ∃ a ∈ alts, a.map canonicalize <:+: s.map canonicalize := by
  induction s with
  | nil => simp [regexScan, matchAltAt]
  | cons c cs ih =>
    simp only [regexScan, Bool.or_eq_true, ih, List.any_eq_true, matchAltAt,
      List.isPrefixOf_iff_prefix, List.map_cons, List.infix_cons_iff]
    constructor
    · rintro (⟨a, ha, h⟩ | ⟨a, ha, h⟩)
      · exact ⟨a, ha, Or.inl h⟩
      · exact ⟨a, ha, Or.inr h⟩
    · rintro ⟨a, ha, h | h⟩
      · exact Or.inl ⟨a, ha, h⟩
      · exact Or.inr ⟨a, ha, h⟩

theorem regexTest_errorLinePattern (line : String) :
    regexTest errorLinePattern line = true ↔ mentionsError line := by
  unfold regexTest mentionsError
  rw [regexScan_iff]
  have key : ∀ a ∈ errorLinePattern.map String.data,
      a.map Char.toLower = "error".data ∨ a.map Char.toLower = "identifier".data := by
    decide
  have m1 : "error".data ∈ errorLinePattern.map String.data := by decide
  have m2 : "Identifier".data ∈ errorLinePattern.map String.data := by decide
  have e1 : "error".data.map Char.toLower = "error".data := by decide
  have e2 : "Identifier".data.map Char.toLower = "identifier".data := by decide
  constructor
  · rintro ⟨a, ha, h⟩
    rw [infix_upper_iff_lower] at h
    rcases key a ha with hk | hk
    · exact Or.inl (hk ▸ h)
    · exact Or.inr (hk ▸ h)
  · rintro (h | h)
    · exact ⟨_, m1, (infix_upper_iff_lower _ _).2 (e1.symm ▸ h)⟩
    · exact ⟨_, m2, (infix_upper_iff_lower _ _).2 (e2.symm ▸ h)⟩

theorem filter_errorLinePattern (lines : List String) :
    lines.filter (fun line => regexTest errorLinePattern line) =
      lines.filter (fun line => decide (mentionsError line)) := by
  apply List.filter_congr
  intro line _
  by_cases h : mentionsError line
  · simp [h, (regexTest_errorLinePattern line).2 h]
  · have : regexTest errorLinePattern line = false := by
      cases hr : regexTest errorLinePattern line
      · rfl
      · exact absurd ((regexTest_errorLinePattern line).1 hr) h
    simp [h, this]

theorem jsSlice_last {α : Type} (n : Nat) (xs : List α) (hn : 0 < n) :
    jsSlice (-(n : Int)) none xs = xs.drop (xs.length - n) := by
  unfold jsSlice
  have hneg : (-(n : Int)) < 0 := by omega
  have hlen : ¬ ((xs.length : Int) < 0) := by omega
  simp only [hneg, if_true, Option.getD_none, hlen, if_false, min_self]
  have hk : (max ((xs.length : Int) + -(n : Int)) 0).toNat = xs.length - n := by omega
  rw [hk]
  apply List.take_of_length_le
  rw [List.length_drop]
  omega

/-! ## Facts about validation -/

theorem resolveProject_ok {w : World} {args : JsVal} {p : String}
    (h : ValidProject w args p) :
    resolveProject args w = (.ok p, afterProjectChecks w p) := by
  obtain ⟨hread, habs, es, hdir⟩ := h
  have htruthy : (JsVal.str p).truthy = true := by
    unfold isAbsolutePath at habs
    cases hp : p.data with
    | nil => simp [hp] at habs
    | cons c cs => simp [JsVal.truthy, hp]
  simp [resolveProject, bind, Eff.bind, liftExcept, hread, getProjectPath, htruthy, habs,
    validateProjectPath, existsSync, statIsDirectory, World.log, hdir, Node.isDirectory,
    Eff.pure, pure, afterProjectChecks]

theorem handleTool_gdlint (env : Env) {w : World} {args : JsVal} {p : String}
    (h : ValidProject w args p) :
    handleTool env "gdlint" args w = gdlintCase env p args (afterProjectChecks w p) := by
  simp only [handleTool, bind, Eff.bind, resolveProject_ok h, if_true]

theorem handleTool_gdformat (env : Env) {w : World} {args : JsVal} {p : String}
    (h : ValidProject w args p) :
    handleTool env "gdformat" args w = gdformatCase env p args (afterProjectChecks w p) := by
  simp only [handleTool, bind, Eff.bind, resolveProject_ok h,
    show ("gdformat" = "gdlint") = False from by decide, if_false, if_true]

theorem handleTool_exportValidate (env : Env) {w : World} {args : JsVal} {p : String}
    (h : ValidProject w args p) :
    handleTool env "godot_export_validate" args w =
      exportValidateCase env p args (afterProjectChecks w p) := by
  simp only [handleTool, bind, Eff.bind, resolveProject_ok h,
    show ("godot_export_validate" = "gdlint") = False from by decide,
    show ("godot_export_validate" = "gdformat") = False from by decide, if_false, if_true]

theorem handleTool_checkAll (env : Env) {w : World} {args : JsVal} {p : String}
    (h : ValidProject w args p) :
    handleTool env "godot_check_all" args w =
      checkAllCase env p args (afterProjectChecks w p) := by
  simp only [handleTool, bind, Eff.bind, resolveProject_ok h,
    show ("godot_check_all" = "gdlint") = False from by decide,
    show ("godot_check_all" = "gdformat") = False from by decide,
    show ("godot_check_all" = "godot_export_validate") = False from by decide,
    if_false, if_true]

theorem handleTool_getErrors (env : Env) {w : World} {args : JsVal} {p : String}
    (h : ValidProject w args p) :
    handleTool env "godot_get_errors" args w =
      getErrorsCase env p args (afterProjectChecks w p) := by
  simp only [handleTool, bind, Eff.bind, resolveProject_ok h,
    show ("godot_get_errors" = "gdlint") = False from by decide,
    show ("godot_get_errors" = "gdformat") = False from by decide,
    show ("godot_get_errors" = "godot_export_validate") = False from by decide,
    show ("godot_get_errors" = "godot_check_all") = False from by decide, if_false, if_true]

/-- The recursive call of `godot_check_all` is the export case of `handleTool`. -/
theorem handleTool_export_eq (env : Env) (args : JsVal) :
    handleTool env "godot_export_validate" args = handleExportValidate env args := by
  funext w
  simp only [handleTool, handleExportValidate, bind, Eff.bind,
    show ("godot_export_validate" = "gdlint") = False from by decide,
    show ("godot_export_validate" = "gdformat") = False from by decide, if_false, if_true]

/-! ## C1: `godot_get_errors` -/

theorem getErrorsCase_read (env : Env) (w : World) (args : JsVal) (p logPath content : String)
    (hlog : (args.get "log_file" = .str logPath ∧ isAbsolutePath logPath = true) ∨
      ((args.get "log_file").truthy = false ∧ logPath = pathJoin [p, "logs", "godot.log"]))
    (hfile : w.fs logPath = some (.file content)) :
    ∃ w', getErrorsCase env p args w =
      (.ok (.obj [("success", .bool true),
        ("errors", .str (jsJoin "\n" (jsSlice (-50) none
          ((jsSplit content '\n').filter (fun line => regexTest errorLinePattern line))))),
        ("count", .num (jsSlice (-50) none
          ((jsSplit content '\n').filter (fun line => regexTest errorLinePattern line))).length),
        ("project", .str p)]), w') := by
  rcases hlog with ⟨hstr, habs⟩ | ⟨hfalsy, hdef⟩
  · have htruthy : (JsVal.str logPath).truthy = true := by
      unfold isAbsolutePath at habs
      cases hp : logPath.data with
      | nil => simp [hp] at habs
      | cons c cs => simp [JsVal.truthy, hp]
    simp [getErrorsCase, bind, Eff.bind, hstr, htruthy, habs, existsSync, readFileSync,
      World.log, hfile, Eff.pure, pure]
  · subst hdef
    simp [getErrorsCase, bind, Eff.bind, hfalsy, existsSync, readFileSync,
      World.log, hfile, Eff.pure, pure]

/-- C1: for a valid project and a log path (the absolute `log_file`, or the default
under the project) that holds a file, `godot_get_errors` returns `success = true`,
`count = min 50 |M|` and `errors` = the last `count` elements of `M` joined by a
newline, where `M` is the list, in file order, of the lines mentioning `error` or
`identifier` in any case; so `count ≤ 50` and the returned lines are a suffix of `M`. -/
theorem getErrors_returns_tail (env : Env) (w : World) (args : JsVal)
    (p logPath content : String)
    (hproj : ValidProject w args p)
    (hlog : (args.get "log_file" = .str logPath ∧ isAbsolutePath logPath = true) ∨
      ((args.get "log_file").truthy = false ∧ logPath = pathJoin [p, "logs", "godot.log"]))
    (hfile : w.fs logPath = some (.file content)) :
    ∃ r w', handleTool env "godot_get_errors" args w = (.ok r, w') ∧
      r.get "success" = .bool true ∧
      r.get "count" = .num (min 50 (matchingLines content).length : Nat) ∧
      r.get "errors" = .str (jsJoin "\n" ((matchingLines content).drop
        ((matchingLines content).length - min 50 (matchingLines content).length))) ∧
      min 50 (matchingLines content).length ≤ 50 ∧
      (matchingLines content).drop
        ((matchingLines content).length - min 50 (matchingLines content).length)
          <:+ matchingLines content := by
  have hfile' : (afterProjectChecks w p).fs logPath = some (.file content) := hfile
  obtain ⟨w', hcase⟩ := getErrorsCase_read env (afterProjectChecks w p) args p logPath content
    hlog hfile'
  have hslice : jsSlice (-50) none
      ((jsSplit content '\n').filter (fun line => regexTest errorLinePattern line)) =
      (matchingLines content).drop
        ((matchingLines content).length - min 50 (matchingLines content).length) := by
    rw [filter_errorLinePattern]
    have := jsSlice_last 50 (matchingLines content) (by decide)
    unfold matchingLines at this ⊢
    rw [show (-50 : Int) = -((50 : Nat) : Int) from rfl, this]
    congr 1
    omega
  have hlen : ((matchingLines content).drop
        ((matchingLines content).length - min 50 (matchingLines content).length)).length =
      min 50 (matchingLines content).length := by
    rw [List.length_drop]
    omega
  rw [hslice, hlen] at hcase
  have hmain := handleTool_getErrors env hproj
  rw [hcase] at hmain
  exact ⟨_, _, hmain, by simp [JsVal.get, List.lookup], by simp [JsVal.get, List.lookup],
    by simp [JsVal.get, List.lookup], Nat.min_le_left _ _, List.drop_suffix _ _⟩

/-! ## C6: `getGdFiles` -/

mutual
theorem scanEntry_eq : ∀ (node : Node) (dir name : String) (acc : List String),
    scanEntry node (pathJoin [dir, name]) name acc =
      acc ++ (entryChains node name).map (chainPath dir)
  | .dir sub, dir, name, acc => by
    cases hb : (!ignoreDirs.contains name && !jsStartsWith name ".")
    · have h : name ∈ ignoreDirs ∨ jsStartsWith name "." = true := by
        have hb2 : name ∉ ignoreDirs → jsStartsWith name "." = true := by
          simpa [Bool.and_eq_false_iff] using hb
        by_cases hm : name ∈ ignoreDirs
        · exact Or.inl hm
        · exact Or.inr (hb2 hm)
      simp only [scanEntry, entryChains, hb, h, if_true, List.map_nil, List.append_nil]
      rfl
    · have h : ¬ (name ∈ ignoreDirs ∨ jsStartsWith name "." = true) := by
        simpa [not_or] using hb
      simp only [scanEntry, entryChains, hb, h, if_true, if_false, List.map_map]
      rw [scanDir_eq sub (pathJoin [dir, name]) acc]
      rfl
  | .file _, dir, name, acc => by
    by_cases h : jsEndsWith name ".gd" = true <;> simp [scanEntry, entryChains, h, chainPath]
  | .other, dir, name, acc => by
    simp [scanEntry, entryChains]
theorem scanDir_eq : ∀ (es : List (String × Node)) (dir : String) (acc : List String),
    scanDir es dir acc = acc ++ (dirChains es).map (chainPath dir)
  | [], dir, acc => by simp [scanDir, dirChains]
  | (name, node) :: rest, dir, acc => by
    simp only [scanDir, dirChains, List.map_append]
    rw [scanEntry_eq node dir name acc, scanDir_eq rest dir]
    simp
end

theorem gdChain_mono {es es2 : List (String × Node)} {chain : List String}
    (h : GdChain es chain) (hsub : ∀ x ∈ es, x ∈ es2) : GdChain es2 chain := by
  cases h with
  | file hm he => exact GdChain.file (hsub _ hm) he
  | dir hm hi hs hc => exact GdChain.dir (hsub _ hm) hi hs hc

mutual
theorem entryChains_sound : ∀ (node : Node) (name : String) (chain : List String),
    chain ∈ entryChains node name → ∀ es : List (String × Node), (name, node) ∈ es →
      GdChain es chain
  | .dir sub, name, chain, h, es, hm => by
    by_cases hc : name ∈ ignoreDirs ∨ jsStartsWith name "." = true
    · simp [entryChains, hc] at h
    · simp only [entryChains, hc, if_false, List.mem_map] at h
      obtain ⟨tail, ht, rfl⟩ := h
      simp only [not_or] at hc
      have hs : jsStartsWith name "." = false := by
        cases hv : jsStartsWith name "."
        · rfl
        · exact absurd hv hc.2
      exact GdChain.dir hm hc.1 hs (dirChains_sound sub tail ht)
  | .file content, name, chain, h, es, hm => by
    by_cases hc : jsEndsWith name ".gd" = true
    · simp only [entryChains, hc, if_true, List.mem_singleton] at h
      subst h
      exact GdChain.file hm hc
    · simp [entryChains, hc] at h
  | .other, name, chain, h, es, hm => by
    simp [entryChains] at h
theorem dirChains_sound : ∀ (es : List (String × Node)) (chain : List String),
    chain ∈ dirChains es → GdChain es chain
  | [], chain, h => by simp [dirChains] at h
  | (name, node) :: rest, chain, h => by
    simp only [dirChains, List.mem_append] at h
    rcases h with h | h
    · exact entryChains_sound node name chain h _ (List.mem_cons_self _ _)
    · exact gdChain_mono (dirChains_sound rest chain h) (fun x hx => List.mem_cons_of_mem _ hx)
end

theorem entryChains_subset {es : List (String × Node)} {name : String} {node : Node}
    (hm : (name, node) ∈ es) {chain : List String} (h : chain ∈ entryChains node name) :
    chain ∈ dirChains es := by
  induction es with
  | nil => simp at hm
  | cons x rest ih =>
    obtain ⟨n, nd⟩ := x
    simp only [dirChains, List.mem_append]
    rcases List.mem_cons.1 hm with heq | hrest
    · have h1 : name = n := congrArg Prod.fst heq
      have h2 : node = nd := congrArg Prod.snd heq
      subst h1 h2
      exact Or.inl h
    · exact Or.inr (ih hrest)

theorem dirChains_complete {es : List (String × Node)} {chain : List String}
    (h : GdChain es chain) : chain ∈ dirChains es := by
  induction h with
  | file hm he =>
    apply entryChains_subset hm
    simp [entryChains, he]
  | @dir es sub name chain hm hi hs _ ih =>
    apply entryChains_subset hm
    have hc : ¬ (name ∈ ignoreDirs ∨ jsStartsWith name "." = true) := by
      simp [hi, hs]
    simp only [entryChains, hc, if_false, List.mem_map]
    exact ⟨_, ih, rfl⟩

/-! ### `path.join` keeps a last segment -/

theorem splitChars_ne_nil (sep : Char) (s : List Char) : splitChars sep s ≠ [] := by
  cases s with
  | nil => simp [splitChars]
  | cons c cs =>
    unfold splitChars
    split_ifs
    · simp
    · split <;> simp

theorem splitChars_append_sep (sep : Char) (a b : List Char) :
    splitChars sep (a ++ sep :: b) = splitChars sep a ++ splitChars sep b := by
  induction a with
  | nil => simp [splitChars]
  | cons c cs ih =>
    by_cases h : c = sep
    · simp [splitChars, h, ih]
    · simp only [List.cons_append, splitChars, h, if_false]
      rw [show cs.append (sep :: b) = cs ++ sep :: b from rfl, ih]
      cases hs : splitChars sep cs with
      | nil => exact absurd hs (splitChars_ne_nil sep cs)
      | cons l ls => simp

theorem splitChars_no_sep (sep : Char) (n : List Char) (h : sep ∉ n) :
    splitChars sep n = [n] := by
  induction n with
  | nil => simp [splitChars]
  | cons c cs ih =>
    have hc : c ≠ sep := fun e => h (by simp [e])
    have hcs : sep ∉ cs := fun e => h (List.mem_cons_of_mem _ e)
    simp [splitChars, hc, ih hcs]

theorem joinChars_append_singleton (sep : List Char) (xs : List (List Char)) (n : List Char) :
    n <:+ joinChars sep (xs ++ [n]) := by
  induction xs with
  | nil => simp [joinChars]
  | cons x rest ih =>
    cases rest with
    | nil =>
      simp only [List.cons_append, List.nil_append, joinChars]
      exact List.suffix_append _ _
    | cons y r =>
      simp only [List.cons_append, joinChars]
      simp only [List.cons_append] at ih
      exact ih.trans (List.suffix_append _ _)

theorem normalizeChars_suffix (p n : List Char) (hn : ProperSegment n)
    (hp : p = n ∨ ∃ a, p = a ++ '/' :: n) : n <:+ normalizeChars p := by
  obtain ⟨hne, hdot, hdd, hslash⟩ := hn
  have hpne : p ≠ [] := by
    rcases hp with rfl | ⟨a, rfl⟩
    · exact hne
    · simp
  have hsplit : ∃ front, splitChars '/' p = front ++ [n] := by
    rcases hp with rfl | ⟨a, rfl⟩
    · exact ⟨[], by simp [splitChars_no_sep '/' _ hslash]⟩
    · exact ⟨splitChars '/' a, by rw [splitChars_append_sep, splitChars_no_sep '/' _ hslash]⟩
  have hlast : p.getLast? = n.getLast? := by
    rcases hp with rfl | ⟨a, rfl⟩
    · rfl
    · cases n with
      | nil => exact absurd rfl hne
      | cons c cs =>
        rw [List.getLast?_append, List.getLast?_cons_cons]
        cases hl : (c :: cs).getLast? with
        | none => simp at hl
        | some d => rfl
  have htrail : (p.getLast? == some '/') = false := by
    rw [hlast]
    cases hl : n.getLast? with
    | none => rfl
    | some c =>
      have hmem : c ∈ n := List.mem_of_getLast?_eq_some hl
      have hc : c ≠ '/' := fun e => hslash (e ▸ hmem)
      simp [hc]
  obtain ⟨front, hfront⟩ := hsplit
  have hstep : ∀ (b : Bool) (stack : List (List Char)), normStep b stack n = n :: stack := by
    intro b stack
    simp [normStep, hne, hdot, hdd]
  have hbody : ∀ b : Bool, n <:+ joinChars ['/']
      (((splitChars '/' p).foldl (normStep b) []).reverse) := by
    intro b
    rw [hfront, List.foldl_append, List.foldl_cons, List.foldl_nil, hstep, List.reverse_cons]
    exact joinChars_append_singleton _ _ _
  have hbne : ∀ b : Bool, joinChars ['/']
      (((splitChars '/' p).foldl (normStep b) []).reverse) ≠ [] := by
    intro b hnil
    have := hbody b
    rw [hnil] at this
    exact hne (List.suffix_nil.1 this)
  unfold normalizeChars
  simp only [hpne, if_false, htrail, hbne, Bool.false_eq_true]
  split_ifs
  · exact (hbody _).trans (List.suffix_cons _ _)
  · exact hbody _

theorem pathJoin_suffix (dir name : String) (h : ProperSegment name.data) :
    name.data <:+ (pathJoin [dir, name]).data := by
  have hne : name.data ≠ [] := h.1
  by_cases hd : dir.data = []
  · have hparts : ([dir, name].map String.data).filter (fun a => decide (a ≠ [])) =
        [name.data] := by
      simp [List.filter, hd, hne]
    unfold pathJoin
    simp only [hparts, joinChars]
    simp only [List.cons_ne_nil, if_false, reduceCtorEq]
    exact normalizeChars_suffix _ _ h (Or.inl rfl)
  · have hparts : ([dir, name].map String.data).filter (fun a => decide (a ≠ [])) =
        [dir.data, name.data] := by
      simp [List.filter, hd, hne]
    unfold pathJoin
    simp only [hparts, joinChars]
    simp only [List.cons_ne_nil, if_false, reduceCtorEq]
    exact normalizeChars_suffix _ _ h (Or.inr ⟨dir.data, by simp⟩)

theorem properSegment_of_gd (name : String) (hgd : jsEndsWith name ".gd" = true)
    (hslash : '/' ∉ name.data) : ProperSegment name.data := by
  unfold jsEndsWith at hgd
  rw [List.isSuffixOf_iff_suffix] at hgd
  obtain ⟨t, ht⟩ := hgd
  have hlen : 3 ≤ name.data.length := by
    rw [← ht]
    simp [List.length_append]
  refine ⟨?_, ?_, ?_, hslash⟩ <;> intro e <;> rw [e] at hlen <;> simp at hlen

theorem pathJoin_endsWith_gd (dir name : String) (hgd : jsEndsWith name ".gd" = true)
    (hslash : '/' ∉ name.data) : jsEndsWith (pathJoin [dir, name]) ".gd" = true := by
  have hs := pathJoin_suffix dir name (properSegment_of_gd name hgd hslash)
  unfold jsEndsWith at hgd ⊢
  rw [List.isSuffixOf_iff_suffix] at hgd ⊢
  exact hgd.trans hs

theorem wfEntries_mem {es : List (String × Node)} (hwf : wfEntries es = true)
    {name : String} {node : Node} (hm : (name, node) ∈ es) :
    '/' ∉ name.data ∧ wfNode node = true := by
  induction es with
  | nil => simp at hm
  | cons x rest ih =>
    obtain ⟨n, nd⟩ := x
    simp only [wfEntries, Bool.and_eq_true, Bool.not_eq_true', List.contains_eq_any_beq] at hwf
    rcases List.mem_cons.1 hm with heq | hrest
    · have h1 : name = n := congrArg Prod.fst heq
      have h2 : node = nd := congrArg Prod.snd heq
      subst h1 h2
      refine ⟨?_, hwf.1.2⟩
      intro hmem
      have := hwf.1.1.1
      simp only [List.any_eq_false, beq_iff_eq] at this
      exact this _ hmem rfl
    · exact ih hwf.2 hrest

theorem chainPath_endsWith_gd {es : List (String × Node)} {chain : List String}
    (h : GdChain es chain) : ∀ root : String, wfEntries es = true →
      jsEndsWith (chainPath root chain) ".gd" = true := by
  induction h with
  | file hm he =>
    intro root hwf
    exact pathJoin_endsWith_gd root _ he (wfEntries_mem hwf hm).1
  | dir hm _ _ _ ih =>
    intro root hwf
    have hsub := (wfEntries_mem hwf hm).2
    simp only [wfNode] at hsub
    exact ih _ hsub

theorem entryChains_head {node : Node} {name : String} {chain : List String}
    (h : chain ∈ entryChains node name) : chain.head? = some name := by
  cases node with
  | dir sub =>
    by_cases hc : name ∈ ignoreDirs ∨ jsStartsWith name "." = true
    · simp [entryChains, hc] at h
    · simp only [entryChains, hc, if_false, List.mem_map] at h
      obtain ⟨tail, _, rfl⟩ := h
      rfl
  | file content =>
    by_cases hc : jsEndsWith name ".gd" = true
    · simp only [entryChains, hc, if_true, List.mem_singleton] at h
      subst h
      rfl
    · simp [entryChains, hc] at h
  | other => simp [entryChains] at h

theorem dirChains_head {es : List (String × Node)} {chain : List String}
    (h : chain ∈ dirChains es) : ∃ n ∈ es.map Prod.fst, chain.head? = some n := by
  induction es with
  | nil => simp [dirChains] at h
  | cons x rest ih =>
    obtain ⟨n, nd⟩ := x
    simp only [dirChains, List.mem_append] at h
    rcases h with h | h
    · exact ⟨n, by simp, entryChains_head h⟩
    · obtain ⟨m, hm, hh⟩ := ih h
      exact ⟨m, by simp [List.mem_map] at hm ⊢; exact Or.inr hm, hh⟩

mutual
theorem entryChains_nodup : ∀ (node : Node) (name : String), wfNode node = true →
    (entryChains node name).Nodup
  | .dir sub, name, hwf => by
    by_cases hc : name ∈ ignoreDirs ∨ jsStartsWith name "." = true
    · simp [entryChains, hc]
    · simp only [entryChains, hc, if_false]
      simp only [wfNode] at hwf
      exact (dirChains_nodup sub hwf).map (fun a b hab => List.tail_eq_of_cons_eq hab)
  | .file _, name, _ => by
    by_cases hc : jsEndsWith name ".gd" = true <;> simp [entryChains, hc]
  | .other, name, _ => by simp [entryChains]
theorem dirChains_nodup : ∀ (es : List (String × Node)), wfEntries es = true →
    (dirChains es).Nodup
  | [], _ => by simp [dirChains]
  | (name, node) :: rest, hwf => by
    simp only [wfEntries, Bool.and_eq_true, Bool.not_eq_true'] at hwf
    simp only [dirChains]
    refine List.Nodup.append (entryChains_nodup node name hwf.1.2) (dirChains_nodup rest hwf.2) ?_
    intro chain h1 h2
    have e1 := entryChains_head h1
    obtain ⟨m, hm, e2⟩ := dirChains_head h2
    rw [e1] at e2
    have hnm : name = m := Option.some.inj e2
    subst hnm
    have hnot := hwf.1.1.2
    simp only [List.contains_eq_any_beq, List.any_eq_false, beq_iff_eq] at hnot
    exact hnot _ hm rfl
end

/-- C6: on a directory, `getGdFiles` returns the paths of the chains of `dirChains`
in that (depth-first, directory-entry) order, each path being the root joined with
the chain's names; the chains are exactly those that lead through non-ignored,
non-hidden directories to a regular file whose name ends with `.gd`; and on a
listing as a filesystem produces it (no slash in a name, no name twice in a
directory) every returned path ends with `.gd` and no chain occurs twice. -/
theorem getGdFiles_spec (root : String) (es : List (String × Node)) :
    getGdFiles root (some (.dir es)) = .ok ((dirChains es).map (chainPath root)) ∧
    (∀ chain, chain ∈ dirChains es ↔ GdChain es chain) ∧
    (wfEntries es = true →
      (∀ p ∈ (dirChains es).map (chainPath root), jsEndsWith p ".gd" = true) ∧
      (dirChains es).Nodup) := by
  refine ⟨?_, ?_, ?_⟩
  · simp [getGdFiles, scanDir_eq]
  · intro chain
    exact ⟨dirChains_sound es chain, dirChains_complete⟩
  · intro hwf
    refine ⟨?_, dirChains_nodup es hwf⟩
    intro p hp
    obtain ⟨chain, hc, rfl⟩ := List.mem_map.1 hp
    exact chainPath_endsWith_gd (dirChains_sound es chain hc) root hwf

/-! ## C8: `godot_export_validate` -/

theorem jsVal_get_obj (fields : List (String × JsVal)) (key : String) :
    (JsVal.obj fields).get key = (fields.lookup key).getD .undefined := rfl

theorem isAtOrUnder_self (p : String) : isAtOrUnder p p = true := by
  simp [isAtOrUnder]

/-- When `mkdtempSync` throws, `godot_export_validate` throws that error: nothing
was created and nothing else is done. -/
theorem exportValidateCase_mkdtemp_fails (env : Env) (p : String) (args : JsVal) (w : World)
    (h : env.tmpSuffix w.trace = none) :
    ∃ e, exportValidateCase env p args w =
      (.error e, { fs := w.fs,
                   trace := w.trace ++
                     [.fs (.mkdtempFailed (pathJoin [env.tmpdir, "godot-mcp-"]))] }) := by
  refine ⟨{ message := "ENOENT: no such file or directory, mkdtemp '" ++
    pathJoin [env.tmpdir, "godot-mcp-"] ++ "XXXXXX'" }, ?_⟩
  simp only [exportValidateCase, bind, Eff.bind, getTempDir, h, World.log]

theorem exportValidateCase_run (env : Env) (p : String) (args : JsVal) (w : World)
    (suffix : String) (h : env.tmpSuffix w.trace = some suffix) :
    (exportValidateCase env p args w).2.trace =
      w.trace ++ [.fs (.mkdtempSync (tempDirOf env suffix))] ++
        exportRunEvents env p args suffix ++ [.fs (.rmSync (tempDirOf env suffix))] ∧
    (∃ r, (exportValidateCase env p args w).1 = .ok r ∧ HasBoolSuccess r ∧
      r.get "cleaned" = .bool true) ∧
    (∀ q, isAtOrUnder (tempDirOf env suffix) q = true →
      (exportValidateCase env p args w).2.fs q = none) ∧
    (∀ q, isAtOrUnder (tempDirOf env suffix) q = false →
      (exportValidateCase env p args w).2.fs q = w.fs q) := by
  have hfs : ∀ q, isAtOrUnder (tempDirOf env suffix) q = false →
      q ≠ pathJoin [env.tmpdir, "godot-mcp-"] ++ suffix := by
    intro q hq e
    rw [e] at hq
    simp only [tempDirOf, isAtOrUnder_self] at hq
    exact Bool.noConfusion hq
  cases hbin : env.GODOT_BIN with
  | none =>
    simp only [exportValidateCase, bind, Eff.bind, getTempDir, h, attempt, liftExcept,
      exportCmd, hbin, rmSync, World.log, Eff.pure, pure, tempDirOf, exportRunEvents,
      exportCmdAt]
    simp [HasBoolSuccess, jsVal_get_obj, List.lookup]
    refine ⟨fun q h1 h2 => by simp [h1] at h2, fun q hq => ?_⟩
    simp [hq, hfs q (by simpa [tempDirOf] using hq)]
  | some bin =>
    cases hexec : env.exec (w.trace ++ [.fs (.mkdtempSync (tempDirOf env suffix))])
        { tool := .godot,
          line := "\"" ++ bin ++ "\" --headless --path \"" ++ p ++
            "\" --export-pack \"" ++ (targetPresetOf args).show ++ "\" \"" ++
            pathJoin [tempDirOf env suffix, "validate.pck"] ++ "\"",
          cwd := some p,
          timeout := some 120000 } with
    | resolved out err =>
      cases herr : regexTest errorPattern (out ++ err) <;>
      · simp only [tempDirOf, targetPresetOf] at hexec
        simp only [exportValidateCase, bind, Eff.bind, getTempDir, h, attempt, liftExcept,
          exportCmd, hbin, execAsync, rmSync, World.log, Eff.pure, pure, tempDirOf,
          exportRunEvents, exportCmdAt, targetPresetOf, hexec, herr]
        simp [HasBoolSuccess, jsVal_get_obj, List.lookup, Eff.pure, Eff.bind, rmSync]
        refine ⟨fun q h1 h2 => by simp [h1] at h2, fun q hq => ?_⟩
        simp [hq, hfs q (by simpa [tempDirOf] using hq)]
    | rejected e =>
      simp only [tempDirOf, targetPresetOf] at hexec
      simp only [exportValidateCase, bind, Eff.bind, getTempDir, h, attempt, liftExcept,
        exportCmd, hbin, execAsync, rmSync, World.log, Eff.pure, pure, tempDirOf,
        exportRunEvents, exportCmdAt, targetPresetOf, hexec]
      simp [HasBoolSuccess, jsVal_get_obj, List.lookup, Eff.pure, Eff.bind, rmSync]
      refine ⟨fun q h1 h2 => by simp [h1] at h2, fun q hq => ?_⟩
      simp [hq, hfs q (by simpa [tempDirOf] using hq)]

theorem handleExportValidate_valid (env : Env) {w : World} {args : JsVal} {p : String}
    (h : ValidProject w args p) :
    handleExportValidate env args w = exportValidateCase env p args (afterProjectChecks w p) := by
  simp only [handleExportValidate, bind, Eff.bind, resolveProject_ok h]

/-- C8: for a valid project and every outcome of the export command (it resolves
with or without error text, or it rejects: non-zero exit, timeout, any other
failure, also the failure to build the command), every result that
`godot_export_validate` returns has `cleaned = true`; when `getTempDir` created a
directory for the call, the call returns, and in the filesystem it leaves, that
directory, and every path below it, is absent; when `mkdtempSync` threw, the call
throws, no directory was created and the filesystem is as it was. -/
theorem exportValidate_removes_tempDir (env : Env) (w : World) (args : JsVal) (p : String)
    (h : ValidProject w args p) :
    (∀ r w', handleTool env "godot_export_validate" args w = (.ok r, w') →
      r.get "cleaned" = .bool true) ∧
    (∀ suffix, env.tmpSuffix (afterProjectChecks w p).trace = some suffix →
      ∃ r w', handleTool env "godot_export_validate" args w = (.ok r, w') ∧
        r.get "cleaned" = .bool true ∧
        Event.fs (.mkdtempSync (tempDirOf env suffix)) ∈ w'.trace ∧
        w'.fs (tempDirOf env suffix) = none ∧
        ∀ q, isAtOrUnder (tempDirOf env suffix) q = true → w'.fs q = none) ∧
    (env.tmpSuffix (afterProjectChecks w p).trace = none →
      ∃ e w', handleTool env "godot_export_validate" args w = (.error e, w') ∧
        w'.fs = w.fs ∧
        w'.trace = (afterProjectChecks w p).trace ++
          [.fs (.mkdtempFailed (pathJoin [env.tmpdir, "godot-mcp-"]))]) := by
  have hcase : handleTool env "godot_export_validate" args w =
      exportValidateCase env p args (afterProjectChecks w p) :=
    handleTool_exportValidate env h
  refine ⟨?_, ?_, ?_⟩
  · intro r w' hr
    rw [hcase] at hr
    cases hs : env.tmpSuffix (afterProjectChecks w p).trace with
    | none =>
      obtain ⟨e, he⟩ := exportValidateCase_mkdtemp_fails env p args _ hs
      rw [he] at hr
      simp at hr
    | some suffix =>
      obtain ⟨_, ⟨r2, hr2, _, hclean⟩, _, _⟩ := exportValidateCase_run env p args _ suffix hs
      rw [hr] at hr2
      simp only [Except.ok.injEq] at hr2
      exact hr2 ▸ hclean
  · intro suffix hs
    obtain ⟨htrace, ⟨r, hr, _, hclean⟩, hgone, _⟩ :=
      exportValidateCase_run env p args (afterProjectChecks w p) suffix hs
    refine ⟨r, (exportValidateCase env p args (afterProjectChecks w p)).2, ?_, hclean, ?_,
      hgone _ (isAtOrUnder_self _), hgone⟩
    · rw [hcase]
      exact Prod.ext hr rfl
    · rw [htrace]
      simp
  · intro hs
    obtain ⟨e, he⟩ := exportValidateCase_mkdtemp_fails env p args (afterProjectChecks w p) hs
    exact ⟨e, _, hcase.trans he, rfl, rfl⟩

/-! ## Reasoning rules for computations -/

theorem post_pure {α : Type} {P : α → Prop} {a : α} (h : P a) :
    Post (Pure.pure a : Eff α) P := by
  intro w b w' hb
  simp only [Pure.pure, Eff.pure, Prod.mk.injEq, Except.ok.injEq] at hb
  exact hb.1 ▸ h

theorem post_throwErr {α : Type} {P : α → Prop} {e : JsError} :
    Post (throwErr e : Eff α) P := by
  intro w b w' hb
  simp [GodotMcp.throwErr] at hb

theorem post_bind {α β : Type} {P : β → Prop} {m : Eff α} {f : α → Eff β}
    (h : ∀ a, Post (f a) P) : Post (m >>= f) P := by
  intro w b w' hb
  simp only [Bind.bind, Eff.bind] at hb
  cases hm : m w with
  | mk r w1 =>
    rw [hm] at hb
    cases r with
    | ok a => exact h a w1 b w' hb
    | error e => simp at hb

theorem onlyRuns_pure {α : Type} (tool : Tool) (a : α) :
    OnlyRuns tool (Pure.pure a : Eff α) := by
  intro w
  exact ⟨rfl, 0, [], by simp [Pure.pure, Eff.pure], rfl⟩

theorem onlyRuns_throwErr {α : Type} (tool : Tool) (e : JsError) :
    OnlyRuns tool (throwErr e : Eff α) := by
  intro w
  exact ⟨rfl, 0, [], by simp [GodotMcp.throwErr], rfl⟩

theorem onlyRuns_bind {α β : Type} {tool : Tool} {m : Eff α} {f : α → Eff β}
    (hm : OnlyRuns tool m) (hf : ∀ a, OnlyRuns tool (f a)) : OnlyRuns tool (m >>= f) := by
  intro w
  obtain ⟨hfs, n, evs, htr, htool⟩ := hm w
  simp only [Bind.bind, Eff.bind]
  cases hmw : m w with
  | mk r w1 =>
    rw [hmw] at hfs htr
    simp only at hfs htr
    cases r with
    | error e => exact ⟨hfs, n, evs, htr, htool⟩
    | ok a =>
      obtain ⟨hfs2, n2, evs2, htr2, htool2⟩ := hf a w1
      refine ⟨hfs2.trans hfs, n + n2, evs ++ evs2, ?_, ?_⟩
      · rw [htr2, htr, List.append_assoc]
      · rw [List.filterMap_append, htool, htool2, List.replicate_add]

theorem onlyRuns_attempt {α : Type} {tool : Tool} {m : Eff α} (hm : OnlyRuns tool m) :
    OnlyRuns tool (attempt m) := by
  intro w
  have := hm w
  simpa [GodotMcp.attempt] using this

theorem onlyRuns_existsSync (tool : Tool) (p : String) : OnlyRuns tool (existsSync p) := by
  intro w
  exact ⟨rfl, 0, [.fs (.existsSync p)], rfl, rfl⟩

theorem onlyRuns_getGdFilesIn (tool : Tool) (p : String) : OnlyRuns tool (getGdFilesIn p) := by
  intro w
  unfold GodotMcp.getGdFilesIn
  cases getGdFiles p (w.fs p) <;> exact ⟨rfl, 0, [.fs (.scanDir p)], rfl, rfl⟩

theorem onlyRuns_execAsync (env : Env) (cmd : Cmd) : OnlyRuns cmd.tool (execAsync env cmd) := by
  intro w
  unfold GodotMcp.execAsync
  cases env.exec w.trace cmd <;> exact ⟨rfl, 1, [.exec cmd], rfl, rfl⟩

theorem onlyRuns_validateFilePath (tool : Tool) (file : JsVal) (p : String) :
    OnlyRuns tool (validateFilePath file p) := by
  unfold GodotMcp.validateFilePath
  split_ifs
  · exact onlyRuns_throwErr _ _
  · split
    · split_ifs
      · exact onlyRuns_throwErr _ _
      · refine onlyRuns_bind (onlyRuns_existsSync _ _) (fun found => ?_)
        split_ifs
        · exact onlyRuns_throwErr _ _
        · exact onlyRuns_pure _ _
    · exact onlyRuns_throwErr _ _

theorem post_bind_with {α β : Type} {Q : α → Prop} {P : β → Prop} {m : Eff α}
    {f : α → Eff β} (hm : Post m Q) (h : ∀ a, Q a → Post (f a) P) : Post (m >>= f) P := by
  intro w b w' hb
  simp only [Bind.bind, Eff.bind] at hb
  cases hmw : m w with
  | mk r w1 =>
    rw [hmw] at hb
    cases r with
    | ok a => exact h a (hm w a w1 hmw) w1 b w' hb
    | error e => simp at hb

theorem total_post {α : Type} {P : α → Prop} {m : Eff α} (h : Total m P) : Post m P := by
  intro w a w' ha
  obtain ⟨b, w2, hb, hP⟩ := h w
  rw [hb] at ha
  simp only [Prod.mk.injEq, Except.ok.injEq] at ha
  exact ha.1 ▸ hP

/-! ## C2, C3: `godot_check_all` -/

theorem gdlintCmd_tool (f : String) : (gdlintCmd f).tool = .gdlint := rfl

theorem gdformatCmd_tool (p f : String) : (gdformatCmd p f).tool = .gdformat := rfl

theorem checkAllLintLoop_onlyRuns (env : Env) (files : List String) :
    ∀ st : String × Bool, OnlyRuns .gdlint (checkAllLintLoop env files st) := by
  induction files with
  | nil =>
    intro st
    exact onlyRuns_pure _ _
  | cons f rest ih =>
    rintro ⟨allErrors, hasError⟩
    unfold checkAllLintLoop
    refine onlyRuns_bind (onlyRuns_attempt (onlyRuns_execAsync env (gdlintCmd f))) (fun r => ?_)
    cases r with
    | ok v => exact ih _
    | error e => exact ih _

theorem checkAllFormatLoop_onlyRuns (env : Env) (p : String) (files : List String) :
    OnlyRuns .gdformat (checkAllFormatLoop env p files) := by
  induction files with
  | nil => exact onlyRuns_pure _ _
  | cons f rest ih =>
    unfold checkAllFormatLoop
    exact onlyRuns_bind (onlyRuns_execAsync env (gdformatCmd p f)) (fun _ => ih)

theorem checkAllLint_onlyRuns (env : Env) (p : String) (file : JsVal) :
    OnlyRuns .gdlint (checkAllLint env p file) := by
  unfold checkAllLint
  refine onlyRuns_bind (onlyRuns_attempt ?_) (fun r => ?_)
  · split_ifs
    · refine onlyRuns_bind (onlyRuns_validateFilePath _ _ _) (fun t => ?_)
      exact onlyRuns_bind (onlyRuns_execAsync env (gdlintCmd t)) (fun _ => onlyRuns_pure _ _)
    · refine onlyRuns_bind (onlyRuns_getGdFilesIn _ _) (fun files => ?_)
      refine onlyRuns_bind (checkAllLintLoop_onlyRuns env files _) (fun st => ?_)
      obtain ⟨allErrors, hasError⟩ := st
      simp only
      split_ifs <;> exact onlyRuns_pure _ _
  · cases r <;> exact onlyRuns_pure _ _

theorem checkAllFormat_onlyRuns (env : Env) (p : String) (file : JsVal) :
    OnlyRuns .gdformat (checkAllFormat env p file) := by
  unfold checkAllFormat
  refine onlyRuns_bind (onlyRuns_attempt ?_) (fun r => ?_)
  · split_ifs
    · refine onlyRuns_bind (onlyRuns_validateFilePath _ _ _) (fun t => ?_)
      exact onlyRuns_bind (onlyRuns_execAsync env (gdformatCmd p t)) (fun _ => onlyRuns_pure _ _)
    · exact onlyRuns_bind (onlyRuns_getGdFilesIn _ _)
        (fun files => checkAllFormatLoop_onlyRuns env p files)
  · cases r <;> exact onlyRuns_pure _ _

theorem hasBoolSuccess_cons (b : Bool) (rest : List (String × JsVal)) :
    HasBoolSuccess (.obj (("success", .bool b) :: rest)) :=
  ⟨⟨_, rfl⟩, b, by simp [jsVal_get_obj, List.lookup]⟩

theorem total_pure {α : Type} {P : α → Prop} {a : α} (h : P a) :
    Total (Pure.pure a : Eff α) P :=
  fun w => ⟨a, w, rfl, h⟩

theorem total_attempt_bind {α β : Type} {Q : α → Prop} {P : β → Prop} {m : Eff α}
    {k : Except JsError α → Eff β} (hm : Post m Q)
    (hk : ∀ r, (∀ a, r = .ok a → Q a) → Total (k r) P) : Total (attempt m >>= k) P := by
  intro w
  simp only [Bind.bind, Eff.bind, attempt]
  cases hmw : m w with
  | mk r w1 =>
    refine hk r (fun a ha => ?_) w1
    subst ha
    exact hm w a w1 hmw

theorem checkAllLint_total (env : Env) (p : String) (file : JsVal) :
    Total (checkAllLint env p file) HasBoolSuccess := by
  unfold checkAllLint
  refine total_attempt_bind (Q := HasBoolSuccess) ?_ (fun r hr => ?_)
  · split_ifs
    · exact post_bind (fun _ => post_bind (fun _ => post_pure (hasBoolSuccess_cons _ _)))
    · refine post_bind (fun files => post_bind (fun st => ?_))
      obtain ⟨allErrors, hasError⟩ := st
      simp only
      split_ifs <;> exact post_pure (hasBoolSuccess_cons _ _)
  · cases r with
    | ok lint => exact total_pure (hr lint rfl)
    | error e => exact total_pure (hasBoolSuccess_cons _ _)

theorem checkAllFormat_total (env : Env) (p : String) (file : JsVal) :
    Total (checkAllFormat env p file) HasBoolSuccess := by
  unfold checkAllFormat
  refine total_attempt_bind (Q := fun _ => True) (fun _ _ _ _ => trivial) (fun r _ => ?_)
  cases r with
  | ok _ => exact total_pure (hasBoolSuccess_cons _ _)
  | error e => exact total_pure (hasBoolSuccess_cons _ _)

theorem jsAnd_bool (a b : Bool) : jsAnd (.bool a) (.bool b) = .bool (a && b) := by
  cases a <;> simp [jsAnd, JsVal.truthy]

theorem okOrFail_bool (b : Bool) : okOrFail (.bool b) = if b then "OK" else "FAIL" := by
  cases b <;> simp [okOrFail, JsVal.truthy]

theorem exportValidateCase_post (env : Env) (p : String) (args : JsVal) :
    Post (exportValidateCase env p args) HasBoolSuccess := by
  intro w a w' ha
  cases hs : env.tmpSuffix w.trace with
  | none =>
    obtain ⟨e, he⟩ := exportValidateCase_mkdtemp_fails env p args w hs
    rw [he] at ha
    simp at ha
  | some suffix =>
    obtain ⟨_, ⟨r, hr, hb, _⟩, _, _⟩ := exportValidateCase_run env p args w suffix hs
    rw [ha] at hr
    simp only [Except.ok.injEq] at hr
    exact hr ▸ hb

theorem handleExportValidate_post (env : Env) (args : JsVal) :
    Post (handleExportValidate env args) HasBoolSuccess := by
  unfold handleExportValidate
  exact post_bind (fun q => exportValidateCase_post env q _)

/-- Whatever `godot_check_all` returns is assembled from three step results that
are objects with a boolean `success`. -/
theorem checkAllCase_shape (env : Env) (p : String) (args : JsVal) :
    Post (checkAllCase env p args) (fun r =>
      ∃ lint format exp, r = checkAllResult p lint format exp ∧
        HasBoolSuccess lint ∧ HasBoolSuccess format ∧ HasBoolSuccess exp) := by
  unfold checkAllCase
  refine post_bind_with (total_post (checkAllLint_total env p _)) (fun lint hl => ?_)
  refine post_bind_with (total_post (checkAllFormat_total env p _)) (fun format hf => ?_)
  refine post_bind_with (handleExportValidate_post env _) (fun exp he => ?_)
  exact post_pure ⟨lint, format, exp, rfl, hl, hf, he⟩

theorem checkAllCase_post (env : Env) (p : String) (args : JsVal) :
    Post (checkAllCase env p args) HasBoolSuccess := by
  intro w r w' hr
  obtain ⟨lint, format, exp, rfl, ⟨_, bl, hbl⟩, _, ⟨_, be, hbe⟩⟩ :=
    checkAllCase_shape env p args w r w' hr
  exact ⟨⟨_, rfl⟩, bl && be, by
    simp [checkAllResult, jsVal_get_obj, List.lookup, hbl, hbe, jsAnd_bool]⟩

/-- With a valid project and a `mkdtempSync` that does not throw, `godot_check_all`
returns; the commands it ran are, in order, some runs of `gdlint`, some runs of
`gdformat`, and one run of the export command when `GODOT_BIN` is bound, none
when it is not. -/
theorem checkAll_run (env : Env) (w : World) (args : JsVal) (p : String)
    (h : ValidProject w args p) (hmk : ∀ t, (env.tmpSuffix t).isSome = true) :
    ∃ lint format exp w' evs a b,
      handleTool env "godot_check_all" args w = (.ok (checkAllResult p lint format exp), w') ∧
      HasBoolSuccess lint ∧ HasBoolSuccess format ∧ HasBoolSuccess exp ∧
      w'.trace = w.trace ++ evs ∧
      evs.filterMap Event.tool? =
        List.replicate a Tool.gdlint ++ List.replicate b Tool.gdformat ++
          (if env.GODOT_BIN.isSome then [Tool.godot] else []) := by
  obtain ⟨lint, w1, h1, hl⟩ := checkAllLint_total env p (args.get "file") (afterProjectChecks w p)
  obtain ⟨hfs1, a, evs1, htr1, htool1⟩ :=
    checkAllLint_onlyRuns env p (args.get "file") (afterProjectChecks w p)
  rw [h1] at hfs1 htr1
  simp only at hfs1 htr1
  obtain ⟨format, w2, h2, hf⟩ := checkAllFormat_total env p (args.get "file") w1
  obtain ⟨hfs2, b, evs2, htr2, htool2⟩ := checkAllFormat_onlyRuns env p (args.get "file") w1
  rw [h2] at hfs2 htr2
  simp only at hfs2 htr2
  have hv : ValidProject w2 (checkAllExportArgs p) p := by
    obtain ⟨_, habs, es, hdir⟩ := h
    refine ⟨by simp [checkAllExportArgs, readProject, jsVal_get_obj, List.lookup], habs, es, ?_⟩
    rw [hfs2, hfs1]
    exact hdir
  have h3 := handleExportValidate_valid env hv
  obtain ⟨suffix, hs⟩ := Option.isSome_iff_exists.1 (hmk (afterProjectChecks w2 p).trace)
  obtain ⟨htr3, ⟨exp, he, hexp, _⟩, _, _⟩ :=
    exportValidateCase_run env p (checkAllExportArgs p) (afterProjectChecks w2 p) suffix hs
  have h3' : handleExportValidate env (checkAllExportArgs p) w2 =
      (.ok exp, (exportValidateCase env p (checkAllExportArgs p) (afterProjectChecks w2 p)).2) := by
    rw [h3]
    exact Prod.ext he rfl
  refine ⟨lint, format, exp,
    (exportValidateCase env p (checkAllExportArgs p) (afterProjectChecks w2 p)).2,
    [.fs (.existsSync p), .fs (.statSync p)] ++ evs1 ++ evs2 ++
      ([.fs (.existsSync p), .fs (.statSync p),
        .fs (.mkdtempSync (tempDirOf env suffix))] ++
       exportRunEvents env p (checkAllExportArgs p) suffix ++
       [.fs (.rmSync (tempDirOf env suffix))]),
    a, b, ?_, hl, hf, hexp, ?_, ?_⟩
  · rw [handleTool_checkAll env h]
    simp only [checkAllCase, bind, Eff.bind, h1, h2]
    simp only [checkAllExportArgs] at h3'
    simp only [h3', pure, Eff.pure, checkAllResult, summaryEntries, List.cons_append,
      List.nil_append]
    rfl
  · rw [htr3]
    simp only [afterProjectChecks, htr2, htr1, List.append_assoc, List.cons_append,
      List.nil_append]
  · simp only [List.filterMap_append, htool1, htool2]
    cases hbin : env.GODOT_BIN <;>
      simp [Event.tool?, exportRunEvents, exportCmdAt, exportCmd, hbin]

/-- C2: for a valid project, whatever the `file` argument and the outcomes of the
lint, format and export commands, every result that `godot_check_all` returns has
three step results with boolean `success` fields and a top-level `success` that is
the boolean `results.lint.success && results.export.success`; the format step's
`success` does not enter it.  The call returns whenever `mkdtempSync` does not
throw. -/
theorem checkAll_success_is_lint_and_export (env : Env) (w : World) (args : JsVal)
    (p : String) (h : ValidProject w args p) :
    (∀ r w', handleTool env "godot_check_all" args w = (.ok r, w') →
      ∃ bl bf be,
        ((r.get "results").get "lint").get "success" = .bool bl ∧
        ((r.get "results").get "format").get "success" = .bool bf ∧
        ((r.get "results").get "export").get "success" = .bool be ∧
        r.get "success" = .bool (bl && be)) ∧
    ((∀ t, (env.tmpSuffix t).isSome = true) →
      ∃ r w', handleTool env "godot_check_all" args w = (.ok r, w')) := by
  constructor
  · intro r w' hr
    rw [handleTool_checkAll env h] at hr
    obtain ⟨lint, format, exp, rfl, ⟨_, bl, hl⟩, ⟨_, bf, hf⟩, ⟨_, be, he⟩⟩ :=
      checkAllCase_shape env p args _ r w' hr
    refine ⟨bl, bf, be, ?_, ?_, ?_, ?_⟩
    · simpa [checkAllResult, jsVal_get_obj, List.lookup] using hl
    · simpa [checkAllResult, jsVal_get_obj, List.lookup] using hf
    · simpa [checkAllResult, jsVal_get_obj, List.lookup] using he
    · simp [checkAllResult, jsVal_get_obj, List.lookup, hl, he, jsAnd_bool]
  · intro hmk
    obtain ⟨lint, format, exp, w', _, _, _, hrun, _⟩ := checkAll_run env w args p h hmk
    exact ⟨_, w', hrun⟩

/-! ## C7: `gdlint` with `all` -/

theorem lintAllLoop_run (env : Env) (files : List String) :
    ∀ (allErrors : String) (hasError : Bool) (w : World),
      ∃ allErrors',
        lintAllLoop env files (allErrors, hasError) w =
          (.ok (allErrors',
                hasError || !(gdlintOutcomes env files w.trace).all ExecResult.lintClean),
           { fs := w.fs,
             trace := w.trace ++ files.map (fun f => Event.exec (gdlintCmd f)) }) := by
  induction files with
  | nil =>
    intro allErrors hasError w
    exact ⟨allErrors, by simp [lintAllLoop, gdlintOutcomes, pure, Eff.pure]⟩
  | cons f rest ih =>
    intro allErrors hasError w
    cases hexec : env.exec w.trace (gdlintCmd f) with
    | resolved out err =>
      cases herr : stderrHasError err
      · obtain ⟨acc, hacc⟩ := ih allErrors hasError (w.log (.exec (gdlintCmd f)))
        refine ⟨acc, ?_⟩
        simp only [lintAllLoop, bind, Eff.bind, attempt, execAsync, hexec, herr]
        simp only [World.log] at hacc
        simp [hacc, gdlintOutcomes, hexec, ExecResult.lintClean, herr, World.log]
      · obtain ⟨acc, hacc⟩ := ih (allErrors ++ errorBlock f err) true
          (w.log (.exec (gdlintCmd f)))
        refine ⟨acc, ?_⟩
        simp only [lintAllLoop, bind, Eff.bind, attempt, execAsync, hexec, herr]
        simp only [World.log] at hacc
        simp [hacc, gdlintOutcomes, hexec, ExecResult.lintClean, herr, World.log]
    | rejected e =>
      obtain ⟨acc, hacc⟩ := ih (allErrors ++ errorBlock f (e.stderrOr e.message)) true
        (w.log (.exec (gdlintCmd f)))
      refine ⟨acc, ?_⟩
      simp only [lintAllLoop, bind, Eff.bind, attempt, execAsync, hexec]
      simp only [World.log] at hacc
      simp [hacc, gdlintOutcomes, hexec, ExecResult.lintClean, World.log]

/-- C7 (as amended): for a valid project, `gdlint` with `all` returns with
`checkedFiles` the number of files of `getGdFiles(project)`, and `success` is true
exactly when every `gdlint` run exited with status zero and wrote no stderr
containing `error`. -/
theorem gdlint_all_success_iff_every_run_clean (env : Env) (w : World) (args : JsVal)
    (p : String) (h : ValidProject w args p) (hall : (args.get "all").truthy = true) :
    ∃ files r w',
      getGdFiles p (w.fs p) = .ok files ∧
      handleTool env "gdlint" args w = (.ok r, w') ∧
      r.get "checkedFiles" = .num files.length ∧
      r.get "success" =
        .bool ((gdlintOutcomes env files (lintAllStart w p)).all ExecResult.lintClean) := by
  obtain ⟨es, hdir⟩ := h.2.2
  have hfiles : getGdFiles p (w.fs p) = .ok (scanDir es p []) := by
    simp [getGdFiles, hdir]
  obtain ⟨acc, hloop⟩ := lintAllLoop_run env (scanDir es p []) "" false
    ((afterProjectChecks w p).log (.fs (.scanDir p)))
  have hfiles' : getGdFiles p ((afterProjectChecks w p).fs p) = .ok (scanDir es p []) := hfiles
  have hmain : handleTool env "gdlint" args w =
      (.ok (.obj [("success", .bool (!(false || !(gdlintOutcomes env (scanDir es p [])
              (lintAllStart w p)).all ExecResult.lintClean))),
          ("output", .str (if (false || !(gdlintOutcomes env (scanDir es p [])
              (lintAllStart w p)).all ExecResult.lintClean) = true
            then "发现错误" else "所有文件检查通过")),
          ("errors", .str acc),
          ("checkedFiles", .num (scanDir es p []).length),
          ("project", .str p)]),
        { fs := w.fs,
          trace := lintAllStart w p ++
            (scanDir es p []).map (fun f => Event.exec (gdlintCmd f)) }) := by
    rw [handleTool_gdlint env h]
    simp only [gdlintCase, hall, if_true, bind, Eff.bind, getGdFilesIn, hfiles', hloop, pure,
      Eff.pure]
    rfl
  exact ⟨scanDir es p [], _, _, hfiles, hmain, by simp [jsVal_get_obj, List.lookup],
    by simp [jsVal_get_obj, List.lookup]⟩

/-! ## C5: the call-operation handler -/

theorem gdlintCase_post (env : Env) (p : String) (args : JsVal) :
    Post (gdlintCase env p args) HasBoolSuccess := by
  unfold gdlintCase
  simp only
  split_ifs
  · refine post_bind (fun files => post_bind (fun st => ?_))
    obtain ⟨allErrors, hasError⟩ := st
    exact post_pure (hasBoolSuccess_cons _ _)
  · refine post_bind (fun t => post_bind (fun r => ?_))
    cases r with
    | ok v =>
      obtain ⟨stdout, stderr⟩ := v
      simp only
      split_ifs <;> exact post_pure (hasBoolSuccess_cons _ _)
    | error e => exact post_pure (hasBoolSuccess_cons _ _)

theorem gdformatCase_post (env : Env) (p : String) (args : JsVal) :
    Post (gdformatCase env p args) HasBoolSuccess := by
  unfold gdformatCase
  refine post_bind (fun t => post_bind (fun r => ?_))
  cases r with
  | ok v => exact post_pure (hasBoolSuccess_cons _ _)
  | error e => exact post_pure (hasBoolSuccess_cons _ _)

theorem getErrorsCase_post (env : Env) (p : String) (args : JsVal) :
    Post (getErrorsCase env p args) HasBoolSuccess := by
  unfold getErrorsCase
  refine post_bind (fun logPath => post_bind (fun found => ?_))
  split_ifs
  · exact post_pure (hasBoolSuccess_cons _ _)
  · exact post_bind (fun content => post_pure (hasBoolSuccess_cons _ _))

theorem handleTool_post (env : Env) (name : String) (args : JsVal) :
    Post (handleTool env name args) HasBoolSuccess := by
  unfold handleTool
  refine post_bind (fun p => ?_)
  split_ifs
  · exact gdlintCase_post env p args
  · exact gdformatCase_post env p args
  · exact exportValidateCase_post env p args
  · exact checkAllCase_post env p args
  · exact getErrorsCase_post env p args
  · exact post_pure (hasBoolSuccess_cons _ _)

/-- C5: for every operation name, every arguments value and every outcome of the
filesystem and of the external commands, the call-operation handler returns (it
does not throw) a response whose content is exactly one item of type `text`, the
encoding of an object with a boolean `success`; and when `handleTool` throws an
error, that object is exactly `{success: false, error: message}`. -/
theorem callToolHandler_always_responds (stringify : JsVal → String) (env : Env)
    (name : String) (args : JsVal) (w : World) :
    ∃ payload w',
      callToolHandler stringify env name args w =
        (.ok { content := [{ type := "text", text := stringify payload }] }, w') ∧
      HasBoolSuccess payload ∧
      ∀ e w1, handleTool env name args w = (.error e, w1) →
        payload = .obj [("success", .bool false), ("error", .str e.message)] := by
  cases hrun : handleTool env name args w with
  | mk r w1 =>
    cases r with
    | ok result =>
      refine ⟨result, w1, ?_, handleTool_post env name args w result w1 hrun, ?_⟩
      · simp [callToolHandler, bind, Eff.bind, attempt, hrun, pure, Eff.pure]
      · intro e w2 he
        simp at he
    | error e =>
      refine ⟨.obj [("success", .bool false), ("error", .str e.message)], w1, ?_,
        hasBoolSuccess_cons _ _, ?_⟩
      · simp [callToolHandler, bind, Eff.bind, attempt, hrun, pure, Eff.pure]
      · intro e2 w2 he
        simp only [Prod.mk.injEq, Except.error.injEq] at he
        rw [he.1]

/-! ## C4: unknown operation names -/

/-- C4 (as amended): `args.project` is validated before the handler lookup.  For a
name outside the catalog, `handleTool` returns the unknown-operation failure
`{success: false, error: '未知工具'}` without throwing when the project is an
absolute path of an existing directory, having made only the two checks of the
project; and when the validation of the project throws, `handleTool` throws that
error. -/
theorem unknown_tool_after_project_validation (env : Env) (w : World) (name : String)
    (args : JsVal) (hname : name ∉ toolNames) :
    (∀ p, ValidProject w args p →
      handleTool env name args w = (.ok unknownToolResult, afterProjectChecks w p)) ∧
    (∀ e w1, resolveProject args w = (.error e, w1) →
      handleTool env name args w = (.error e, w1)) := by
  simp only [toolNames, List.mem_cons, List.mem_singleton, List.not_mem_nil, or_false,
    not_or] at hname
  obtain ⟨h1, h2, h3, h4, h5⟩ := hname
  constructor
  · intro p hp
    simp only [handleTool, bind, Eff.bind, resolveProject_ok hp, h1, h2, h3, h4, h5, if_false,
      pure, Eff.pure, unknownToolResult]
  · intro e w1 he
    simp only [handleTool, bind, Eff.bind, he]

/-! ## C9: relative paths -/

theorem str_truthy_of_absolute {s : String} (h : isAbsolutePath s = true) :
    (JsVal.str s).truthy = true := by
  unfold isAbsolutePath at h
  cases hp : s.data with
  | nil => simp [hp] at h
  | cons c cs => simp [JsVal.truthy, hp]

theorem readProject_of_get {args : JsVal} {s : String} (h : args.get "project" = .str s) :
    readProject args = .ok (.str s) := by
  cases args <;> simp_all [readProject, JsVal.get]

theorem validateFilePath_relative (f : String) (p : String) (w : World)
    (hrel : isAbsolutePath f = false) :
    validateFilePath (.str f) p w =
      (.error (if (JsVal.str f).truthy = true
        then { message := "文件路径必须是绝对路径，当前为: " ++ f }
        else { message := "file 参数必须提供" }), w) := by
  unfold validateFilePath
  by_cases ht : (JsVal.str f).truthy = true
  · simp [ht, hrel, throwErr]
  · simp [ht, throwErr]

theorem resolveProject_relative (args : JsVal) (s : String) (w : World)
    (hs : args.get "project" = .str s) (hrel : isAbsolutePath s = false) :
    resolveProject args w =
      (.error (if (JsVal.str s).truthy = true
        then { message := "项目路径必须是绝对路径，当前为相对路径: " ++ s }
        else { message := "project 参数必须提供" }), w) := by
  have hread := readProject_of_get hs
  by_cases ht : (JsVal.str s).truthy = true
  · simp [resolveProject, bind, Eff.bind, liftExcept, hread, getProjectPath, ht, hrel]
  · simp [resolveProject, bind, Eff.bind, liftExcept, hread, getProjectPath, ht]

theorem handleTool_resolve_error (env : Env) (name : String) {args : JsVal} {w w1 : World}
    {e : JsError} (h : resolveProject args w = (.error e, w1)) :
    handleTool env name args w = (.error e, w1) := by
  simp only [handleTool, bind, Eff.bind, h]

theorem gdformatCase_file_error (env : Env) (p : String) {args : JsVal} {w w1 : World}
    {e : JsError} (h : validateFilePath (args.get "file") p w = (.error e, w1)) :
    gdformatCase env p args w = (.error e, w1) := by
  simp only [gdformatCase, bind, Eff.bind, h]

theorem gdlintCase_file_error (env : Env) (p : String) {args : JsVal} {w w1 : World}
    {e : JsError} (hall : (args.get "all").truthy = false)
    (h : validateFilePath (args.get "file") p w = (.error e, w1)) :
    gdlintCase env p args w = (.error e, w1) := by
  simp only [gdlintCase, hall, Bool.false_eq_true, if_false, bind, Eff.bind, h]

theorem getErrorsCase_relative (env : Env) (p l : String) {args : JsVal} (w : World)
    (hl : args.get "log_file" = .str l) (ht : (JsVal.str l).truthy = true)
    (hrel : isAbsolutePath l = false) :
    getErrorsCase env p args w =
      (.error { message := "日志文件路径必须是绝对路径，当前为: " ++ l }, w) := by
  simp only [getErrorsCase, bind, Eff.bind, hl, ht, if_true, hrel]
  rfl

/-- C9 (as amended): a relative `project` makes `handleTool` throw, for every
operation, before any filesystem access and any external command (the world is
returned unchanged).  With a valid project, a relative `file` makes `gdformat`,
and `gdlint` without `all`, throw, and a relative non-empty `log_file` makes
`godot_get_errors` throw, after the existence and directory checks of the project
and nothing else: no other filesystem access, no external command. -/
theorem relative_paths_rejected (env : Env) (w : World) (args : JsVal) :
    (∀ name s, args.get "project" = .str s → isAbsolutePath s = false →
      ∃ e, handleTool env name args w = (.error e, w)) ∧
    (∀ name p f, ValidProject w args p →
      (name = "gdformat" ∨ (name = "gdlint" ∧ (args.get "all").truthy = false)) →
      args.get "file" = .str f → isAbsolutePath f = false →
      ∃ e, handleTool env name args w = (.error e, afterProjectChecks w p)) ∧
    (∀ p l, ValidProject w args p →
      args.get "log_file" = .str l → (JsVal.str l).truthy = true → isAbsolutePath l = false →
      ∃ e, handleTool env "godot_get_errors" args w = (.error e, afterProjectChecks w p)) := by
  refine ⟨?_, ?_, ?_⟩
  · intro name s hs hrel
    exact ⟨_, handleTool_resolve_error env name (resolveProject_relative args s w hs hrel)⟩
  · intro name p f hp hname hf hrel
    have he := validateFilePath_relative f p (afterProjectChecks w p) hrel
    rw [← hf] at he
    rcases hname with rfl | ⟨rfl, hall⟩
    · exact ⟨_, (handleTool_gdformat env hp).trans (gdformatCase_file_error env p he)⟩
    · exact ⟨_, (handleTool_gdlint env hp).trans (gdlintCase_file_error env p hall he)⟩
  · intro p l hp hl ht hrel
    exact ⟨_, (handleTool_getErrors env hp).trans
      (getErrorsCase_relative env p l (afterProjectChecks w p) hl ht hrel)⟩

/-! ## The sample project -/

theorem sample_valid (args : JsVal) (h : args.get "project" = .str "/proj") :
    ValidProject sampleWorld args "/proj" :=
  ⟨readProject_of_get h, by decide, sampleEntries, by simp [sampleWorld, sampleFs]⟩

theorem sample_getGdFiles :
    getGdFiles "/proj" (sampleFs "/proj") = .ok ["/proj/main.gd", "/proj/addons/tool.gd"] := by
  rfl

/-! ## Closed instances -/

/-- C4, counterexample: a name outside the catalog with no project makes
`handleTool` throw the validation error instead of returning the unknown-operation
failure. -/
theorem unknown_tool_without_project_throws :
    "no_such_tool" ∉ toolNames ∧
    ∃ e, handleTool quietEnv "no_such_tool" (.obj []) sampleWorld = (.error e, sampleWorld) ∧
      e.message = "project 参数必须提供" :=
  ⟨by decide, _, rfl, rfl⟩

/-- C7, counterexample: both `gdlint` runs exit non-zero with a stderr that does
not contain `error`; no stderr matched the pattern, yet `success` is false. -/
theorem gdlint_all_fails_without_stderr_match :
    ∃ r w', handleTool failingEnv "gdlint" lintAllArgs sampleWorld = (.ok r, w') ∧
      r.get "success" = .bool false ∧ r.get "checkedFiles" = .num 2 ∧
      (gdlintOutcomes failingEnv ["/proj/main.gd", "/proj/addons/tool.gd"]
        (lintAllStart sampleWorld "/proj")).all (fun o => !o.stderrMatches) = true :=
  ⟨_, _, rfl, rfl, rfl, by decide⟩

/-- C3, at the failing input: the sample project, every command exiting with
status zero, in the program as shipped (`GODOT_BIN` bound nowhere).
`godot_check_all` returns after two runs of `gdlint` and two runs of `gdformat`
and no run of the export command: building the command line throws inside the
`try` of the export step, whose result is the failure of the `catch`. -/
theorem checkAll_never_starts_export :
    quietEnv.GODOT_BIN = none ∧
    ∃ r w', handleTool quietEnv "godot_check_all" projectArgs sampleWorld = (.ok r, w') ∧
      w'.trace.filterMap Event.tool? =
        [Tool.gdlint, Tool.gdlint, Tool.gdformat, Tool.gdformat] ∧
      (r.get "results").get "export" =
        .obj [("success", .bool false), ("output", .str "验证失败"),
              ("errors", .str "GODOT_BIN is not defined"), ("cleaned", .bool true),
              ("project", .str "/proj")] ∧
      (r.get "results").get "summary" =
        .arr [.str "Lint: OK", .str "Format: OK", .str "Export: FAIL"] :=
  ⟨rfl, _, _, rfl, by decide, rfl, rfl⟩

/-- C9, counterexample: with a relative `file`, `godot_check_all` returns normally,
having created and removed a temporary directory; `gdlint` with `all` returns
normally, having run `gdlint` on both scripts; and `gdformat` throws only after the
existence and directory checks of the project. -/
theorem relative_file_not_rejected_before_access :
    (∃ r w', handleTool quietEnv "godot_check_all" relativeFileArgs sampleWorld = (.ok r, w') ∧
      Event.fs (.mkdtempSync "/tmp/godot-mcp-a1B2c3") ∈ w'.trace) ∧
    (∃ r w', handleTool quietEnv "gdlint" relativeFileAllArgs sampleWorld = (.ok r, w') ∧
      w'.trace.filterMap Event.tool? = [Tool.gdlint, Tool.gdlint]) ∧
    (∃ e w', handleTool quietEnv "gdformat" relativeFileArgs sampleWorld = (.error e, w') ∧
      w'.trace = [.fs (.existsSync "/proj"), .fs (.statSync "/proj")]) :=
  ⟨⟨_, _, rfl, by decide⟩, ⟨_, _, rfl, by decide⟩, ⟨_, _, rfl, by decide⟩⟩

/-- C10, at the failing input: `gdlint` exits with status zero and writes `Error`
to stderr.  The `gdlint` operation reports `success = false`, for the file and for
the whole project; the lint step of `godot_check_all` reports `success = true` in
both scopes, with the same `checkedFiles`. -/
theorem checkAll_lint_ignores_stderr :
    (∃ r w', handleTool noisyEnv "gdlint" mainFileArgs sampleWorld = (.ok r, w') ∧
      r.get "success" = .bool false) ∧
    (∃ r w', handleTool noisyEnv "godot_check_all" mainFileArgs sampleWorld = (.ok r, w') ∧
      ((r.get "results").get "lint").get "success" = .bool true) ∧
    (∃ r w', handleTool noisyEnv "gdlint" lintAllArgs sampleWorld = (.ok r, w') ∧
      r.get "success" = .bool false ∧ r.get "checkedFiles" = .num 2) ∧
    (∃ r w', handleTool noisyEnv "godot_check_all" projectArgs sampleWorld = (.ok r, w') ∧
      ((r.get "results").get "lint").get "success" = .bool true ∧
      ((r.get "results").get "lint").get "checkedFiles" = .num 2) :=
  ⟨⟨_, _, rfl, rfl⟩, ⟨_, _, rfl, rfl⟩, ⟨_, _, rfl, rfl, rfl⟩, ⟨_, _, rfl, rfl, rfl⟩⟩

/-- C1, witness: on the sample log, three of the six lines mention an error. -/
theorem getErrors_returns_tail_witness :
    ValidProject sampleWorld projectArgs "/proj" ∧
    sampleWorld.fs "/proj/logs/godot.log" = some (.file sampleLog) ∧
    ∃ r w', handleTool quietEnv "godot_get_errors" projectArgs sampleWorld = (.ok r, w') ∧
      r.get "success" = .bool true ∧ r.get "count" = .num 3 ∧
      r.get "errors" = .str
        "ERROR: cannot load\nParser Error: Identifier \"x\" not declared\nunknown identifier y" := by
  have hv := sample_valid projectArgs rfl
  obtain ⟨r, w', h1, h2, h3, h4, _, _⟩ :=
    getErrors_returns_tail quietEnv sampleWorld projectArgs "/proj" "/proj/logs/godot.log"
      sampleLog hv (Or.inr ⟨rfl, by decide⟩) rfl
  have hM : matchingLines sampleLog =
      ["ERROR: cannot load", "Parser Error: Identifier \"x\" not declared",
       "unknown identifier y"] := by decide
  rw [hM] at h3 h4
  exact ⟨hv, rfl, r, w', h1, h2, h3, h4⟩

/-- C2, witness: the sample project, every command failing. -/
theorem checkAll_success_is_lint_and_export_witness :
    ValidProject sampleWorld projectArgs "/proj" ∧
    (∀ t, (failingEnv.tmpSuffix t).isSome = true) ∧
    ∃ r w' bl bf be,
      handleTool failingEnv "godot_check_all" projectArgs sampleWorld = (.ok r, w') ∧
      ((r.get "results").get "lint").get "success" = .bool bl ∧
      ((r.get "results").get "format").get "success" = .bool bf ∧
      ((r.get "results").get "export").get "success" = .bool be ∧
      r.get "success" = .bool (bl && be) := by
  have hv := sample_valid projectArgs rfl
  obtain ⟨hpost, htotal⟩ :=
    checkAll_success_is_lint_and_export failingEnv sampleWorld projectArgs "/proj" hv
  obtain ⟨r, w', hr⟩ := htotal (fun _ => rfl)
  obtain ⟨bl, bf, be, h1, h2, h3, h4⟩ := hpost r w' hr
  exact ⟨hv, fun _ => rfl, r, w', bl, bf, be, hr, h1, h2, h3, h4⟩

/-- C4, witness: a name outside the catalog on the sample project. -/
theorem unknown_tool_after_project_validation_witness :
    "no_such_tool" ∉ toolNames ∧ ValidProject sampleWorld projectArgs "/proj" ∧
    handleTool quietEnv "no_such_tool" projectArgs sampleWorld =
      (.ok unknownToolResult, afterProjectChecks sampleWorld "/proj") :=
  ⟨by decide, sample_valid projectArgs rfl,
    (unknown_tool_after_project_validation quietEnv sampleWorld "no_such_tool" projectArgs
      (by decide)).1 "/proj" (sample_valid projectArgs rfl)⟩

/-- C5, witness: a call that throws inside `handleTool`. -/
theorem callToolHandler_always_responds_witness :
    handleTool quietEnv "gdlint" (.obj []) sampleWorld =
      (.error { message := "project 参数必须提供" }, sampleWorld) ∧
    ∃ payload w',
      callToolHandler JsVal.show quietEnv "gdlint" (.obj []) sampleWorld =
        (.ok { content := [{ type := "text", text := JsVal.show payload }] }, w') ∧
      payload = .obj [("success", .bool false), ("error", .str "project 参数必须提供")] := by
  obtain ⟨payload, w', h1, _, h3⟩ :=
    callToolHandler_always_responds JsVal.show quietEnv "gdlint" (.obj []) sampleWorld
  exact ⟨rfl, payload, w', h1, h3 _ _ rfl⟩

/-- C6, witness: the sample project's entries are well formed. -/
theorem getGdFiles_spec_witness :
    wfEntries sampleEntries = true ∧
    getGdFiles "/proj" (some (.dir sampleEntries)) =
      .ok ((dirChains sampleEntries).map (chainPath "/proj")) ∧
    dirChains sampleEntries = [["main.gd"], ["addons", "tool.gd"]] ∧
    (∀ p ∈ (dirChains sampleEntries).map (chainPath "/proj"), jsEndsWith p ".gd" = true) ∧
    (dirChains sampleEntries).Nodup :=
  ⟨by decide, (getGdFiles_spec "/proj" sampleEntries).1, by decide,
    (getGdFiles_spec "/proj" sampleEntries).2.2 (by decide)⟩

/-- C7, witness: the sample project, every `gdlint` run failing. -/
theorem gdlint_all_success_iff_every_run_clean_witness :
    ValidProject sampleWorld lintAllArgs "/proj" ∧ (lintAllArgs.get "all").truthy = true ∧
    ∃ files r w',
      getGdFiles "/proj" (sampleWorld.fs "/proj") = .ok files ∧
      handleTool failingEnv "gdlint" lintAllArgs sampleWorld = (.ok r, w') ∧
      r.get "checkedFiles" = .num files.length ∧
      r.get "success" =
        .bool ((gdlintOutcomes failingEnv files (lintAllStart sampleWorld "/proj")).all
          ExecResult.lintClean) :=
  ⟨sample_valid lintAllArgs rfl, rfl,
    gdlint_all_success_iff_every_run_clean failingEnv sampleWorld lintAllArgs "/proj"
      (sample_valid lintAllArgs rfl) rfl⟩

/-- C8, witness: the sample project, the export step failing. -/
theorem exportValidate_removes_tempDir_witness :
    ValidProject sampleWorld projectArgs "/proj" ∧
    failingEnv.tmpSuffix (afterProjectChecks sampleWorld "/proj").trace = some "a1B2c3" ∧
    tempDirOf failingEnv "a1B2c3" = "/tmp/godot-mcp-a1B2c3" ∧
    ∃ r w', handleTool failingEnv "godot_export_validate" projectArgs sampleWorld = (.ok r, w') ∧
      r.get "cleaned" = .bool true ∧
      Event.fs (.mkdtempSync "/tmp/godot-mcp-a1B2c3") ∈ w'.trace ∧
      w'.fs "/tmp/godot-mcp-a1B2c3" = none := by
  have hv := sample_valid projectArgs rfl
  have ht : tempDirOf failingEnv "a1B2c3" = "/tmp/godot-mcp-a1B2c3" := by decide
  obtain ⟨r, w', h1, h2, h3, h4, _⟩ :=
    (exportValidate_removes_tempDir failingEnv sampleWorld projectArgs "/proj" hv).2.1
      "a1B2c3" rfl
  rw [ht] at h3 h4
  exact ⟨hv, rfl, ht, r, w', h1, h2, h3, h4⟩

/-- C9, witness: a relative project, a relative file and a relative log path on
the sample project. -/
theorem relative_paths_rejected_witness :
    (∃ e, handleTool quietEnv "godot_check_all" relativeProjectArgs sampleWorld =
      (.error e, sampleWorld)) ∧
    (ValidProject sampleWorld relativeFileArgs "/proj" ∧
      ∃ e, handleTool quietEnv "gdformat" relativeFileArgs sampleWorld =
        (.error e, afterProjectChecks sampleWorld "/proj")) ∧
    (ValidProject sampleWorld relativeLogArgs "/proj" ∧
      ∃ e, handleTool quietEnv "godot_get_errors" relativeLogArgs sampleWorld =
        (.error e, afterProjectChecks sampleWorld "/proj")) :=
  ⟨(relative_paths_rejected quietEnv sampleWorld relativeProjectArgs).1
      "godot_check_all" "proj" rfl (by decide),
    ⟨sample_valid relativeFileArgs rfl,
      (relative_paths_rejected quietEnv sampleWorld relativeFileArgs).2.1
        "gdformat" "/proj" "main.gd" (sample_valid relativeFileArgs rfl) (Or.inl rfl) rfl
        (by decide)⟩,
    ⟨sample_valid relativeLogArgs rfl,
      (relative_paths_rejected quietEnv sampleWorld relativeLogArgs).2.2
        "/proj" "logs/godot.log" (sample_valid relativeLogArgs rfl) rfl (by decide)
        (by decide)⟩⟩

end GodotMcp
